import Mathlib

/-!
Verification development for the schema-driven XML transform
(`generate_xml_logic1.py`, `generate_xml_logic2.py`).

The Python code is shallowly embedded: Python dictionaries become
association lists (insertion-ordered, unique keys), Python values stored in
record dictionaries become the inductive `Val`, lxml element trees become
the inductive `XElem`, and the recursive populator is embedded as a fueled
function (fuel exhaustion is a distinct channel from Python runtime
errors, which are modelled explicitly).
-/

namespace GenXml

/-- Values that can appear in a record dictionary handed to the populator:
Python `None`, strings, ints, bools, lists and (string-keyed) dicts.
Floating-point values are not modelled. -/
inductive Val : Type
  | vNone : Val
  | vStr : String → Val
  | vInt : Int → Val
  | vBool : Bool → Val
  | vList : List Val → Val
  | vDict : List (String × Val) → Val

/-- Python truthiness (`bool(v)`) for the modelled values. -/
def pyTruthy : Val → Bool
  | .vNone => false
  | .vStr s => !(s == "")
  | .vInt n => !(n == 0)
  | .vBool b => b
  | .vList items => !items.isEmpty
  | .vDict fields => !fields.isEmpty

/-- Python test `v == ""` (only a string equal to the empty string passes). -/
def pyEqEmptyStr : Val → Bool
  | .vStr s => s == ""
  | _ => false

/-- Python test `v is None`. -/
def pyIsNone : Val → Bool
  | .vNone => true
  | _ => false

/-- A single-quote character, used by the Python `repr` of strings. -/
def squote : String := String.mk [Char.ofNat 39]

mutual

/-- Python `str(v)` for the modelled values (`repr` is used for elements of
lists/dicts, as Python does). -/
def pyStr : Val → String
  | .vNone => "None"
  | .vStr s => s
  | .vInt n => toString n
  | .vBool true => "True"
  | .vBool false => "False"
  | .vList items => "[" ++ String.intercalate ", " (pyReprList items) ++ "]"
  | .vDict fields => "\x7b" ++ String.intercalate ", " (pyReprFields fields) ++ "\x7d"

/-- Python `repr(v)` for the modelled values. -/
def pyRepr : Val → String
  | .vNone => "None"
  | .vStr s => squote ++ s ++ squote
  | .vInt n => toString n
  | .vBool true => "True"
  | .vBool false => "False"
  | .vList items => "[" ++ String.intercalate ", " (pyReprList items) ++ "]"
  | .vDict fields => "\x7b" ++ String.intercalate ", " (pyReprFields fields) ++ "\x7d"

/-- Helper mapping `pyRepr` over a list. -/
def pyReprList : List Val → List String
  | [] => []
  | v :: vs => pyRepr v :: pyReprList vs

/-- Helper mapping `pyRepr` over dict items. -/
def pyReprFields : List (String × Val) → List String
  | [] => []
  | (k, v) :: kvs => (squote ++ k ++ squote ++ ": " ++ pyRepr v) :: pyReprFields kvs

end

mutual

/-- Python equality (`==`) on the modelled values, restricted to
structural equality on the modelled shapes (mixed-type comparisons other
than those below are `False` in Python for these shapes, except
`bool`/`int` promotion, which is modelled). -/
def valBeq : Val → Val → Bool
  | .vNone, .vNone => true
  | .vStr a, .vStr b => a == b
  | .vInt a, .vInt b => a == b
  | .vBool a, .vBool b => a == b
  | .vBool a, .vInt b => (if a then (1 : Int) else 0) == b
  | .vInt a, .vBool b => a == (if b then (1 : Int) else 0)
  | .vList a, .vList b => valBeqList a b
  | .vDict a, .vDict b => valBeqFields a b
  | _, _ => false

/-- Elementwise Python equality on lists. -/
def valBeqList : List Val → List Val → Bool
  | [], [] => true
  | a :: as_, b :: bs => valBeq a b && valBeqList as_ bs
  | _, _ => false

/-- Itemwise Python equality on dict item lists. -/
def valBeqFields : List (String × Val) → List (String × Val) → Bool
  | [], [] => true
  | (ka, va) :: as_, (kb, vb) :: bs => ka == kb && valBeq va vb && valBeqFields as_ bs
  | _, _ => false

end

/-- Association-list lookup, first match wins (Python dicts have unique
keys, so this agrees with `d[k]` / `d.get(k)` returning `some`). -/
def getKey {α : Type} : List (String × α) → String → Option α
  | [], _ => none
  | (k, v) :: rest, key => if k == key then some v else getKey rest key

/-- Python `key in d`. -/
def hasKey {α : Type} (d : List (String × α)) (key : String) : Bool :=
  (getKey d key).isSome

/-- Python `d.get(key, dflt)`. -/
def getKeyD {α : Type} (d : List (String × α)) (key : String) (dflt : α) : α :=
  (getKey d key).getD dflt

/-- Python `d[key] = v`: overwrite in place if the key exists, otherwise
append at the end (insertion order). -/
def setKey {α : Type} : List (String × α) → String → α → List (String × α)
  | [], key, v => [(key, v)]
  | (k, w) :: rest, key, v =>
      if k == key then (k, v) :: rest else (k, w) :: setKey rest key v

/-- An lxml element: tag, attributes, optional text and ordered children. -/
inductive XElem : Type
  | mk : String → List (String × String) → Option String → List XElem → XElem

/-- Tag of an element. -/
def XElem.tag : XElem → String
  | .mk t _ _ _ => t

/-- Text of an element. -/
def XElem.text : XElem → Option String
  | .mk _ _ tx _ => tx

/-- Children of an element. -/
def XElem.children : XElem → List XElem
  | .mk _ _ _ cs => cs

/-- Simplified model of lxml tag-name validation (ASCII subset): first
character a letter or underscore, rest letters, digits, `_`, `-` or `.`.
`etree.SubElement` raises `ValueError` on an invalid tag. -/
def xmlNameStartOk (c : Char) : Bool := c.isAlpha || c == '_'

/-- Validity of non-initial tag characters. -/
def xmlNameCharOk (c : Char) : Bool :=
  c.isAlphanum || c == '_' || c == '-' || c == '.'

/-- Whether a string is accepted by lxml as an element tag. -/
def xmlTagOk (s : String) : Bool :=
  match s.toList with
  | [] => false
  | c :: cs => xmlNameStartOk c && cs.all xmlNameCharOk

/-- Number of elements in a list carrying a given tag. -/
def countTag (elems : List XElem) (t : String) : Nat :=
  (elems.filter (fun e => e.tag == t)).length

/-! ### Static configuration tables (module-level dicts of the source) -/

/-- Source `child_tables_map`: parent table → child table(s); single-child
entries are normalised to one-element lists, as `merge_tables` itself does. -/
def child_tables_map : List (String × List String) :=
  [("entityenforcement", ["entityenforcementsubcategory"]),
   ("entitypep", ["entitypepsubcategory"]),
   ("entitysanction", ["consolidatedsanction"]),
   ("entitysoe", ["entitysoedomain", "entitysoesubcategory"])]

/-- Source `guid_col_map`: parent table → GUID column name. -/
def guid_col_map : List (String × String) :=
  [("entityenforcement", "entityenforcementguid"),
   ("entitypep", "entitypepguid"),
   ("entitysanction", "entitysanctionguid"),
   ("entitysoe", "entitysoeguid")]

/-- Source `additional_segments_tables_simple`, flattened to
(table name, guid column, segment type label). -/
def additional_segments_tables_simple : List (String × String × String) :=
  [("associatedentity", "associatedentityguid", "Associated Entity"),
   ("fatcatreginst", "fatcatreginstguid", "FATCA Reg Inst"),
   ("marijuanaregbus", "marijuanaregbusguid", "Marijuana Reg Bus"),
   ("ownershiporcontrol", "ownershiporcontrolguid", "Ownership Or Control"),
   ("swiftbicentity", "swiftbicentityguid", "SWIFT BIC Entity")]

/-- Source `additional_segments_tables_mutifield`, flattened to
(table name, guid column, segment type label). -/
def additional_segments_tables_mutifield : List (String × String × String) :=
  [("ihsofacvessels", "ihsofacvesselsguid", "IHS OFAC Vessels"),
   ("ihsregvessels", "ihsregvesselsguid", "IHS Reg Vessels"),
   ("uaemsb", "uaemsbguid", "UAE MSB"),
   ("usmsb", "usmsbguid", "US MSB")]

/-! ### Constraint table, name map, container map -/

/-- One entry of the constraint table extracted from the XSD:
`minOccurs`, `maxOccurs` (`none` models `float('inf')`, i.e. "unbounded")
and the exact element name. -/
structure CInfo : Type where
  minOccurs : Nat
  maxOccurs : Option Nat
  name : String
  deriving DecidableEq

/-- Constraint table: full path → `CInfo` (a Python dict in the source). -/
abbrev Constraints : Type := List (String × CInfo)

/-- Name map: parent path → (lowercase child name → exact child tag). -/
abbrev NameMap : Type := List (String × List (String × String))

/-- Container map: lowercase child tag → (wrapper tag, lowercase child tag). -/
abbrev ContainerMap : Type := List (String × (String × String))

/-- Python `max_occ == float('inf') or max_occ > 1`. -/
def maxGtOne : Option Nat → Bool
  | none => true
  | some k => decide (1 < k)

/-- Python `ct if max_occ == float('inf') else min(ct, max_occ)`. -/
def usedCount (ct : Nat) : Option Nat → Nat
  | none => ct
  | some k => min ct k

/-- Occurrence bounds looked up at a path, with the source's fallback
`(0, unbounded)` when the path has no constraint entry. -/
def boundsAt (constraints : Constraints) (fullPath : String) : Nat × Option Nat :=
  match getKey constraints fullPath with
  | some c => (c.minOccurs, c.maxOccurs)
  | none => (0, none)

/-- Python ASCII-style `.lower()` (schema names are ASCII in practice). -/
def strLower (s : String) : String := String.mk (s.toList.map Char.toLower)

/-! ### Container heuristic detector (`detect_container_map`) -/

/-- Helper for Python `s.split("/")`: split a character list at every
slash. -/
def splitSlashAux : List Char → List Char → List String
  | [], acc => [String.mk acc.reverse]
  | c :: rest, acc =>
      if c == '/' then String.mk acc.reverse :: splitSlashAux rest []
      else splitSlashAux rest (c :: acc)

/-- Python `s.split("/")`. -/
def splitSlash (s : String) : List String := splitSlashAux s.toList []

/-- Python `"/".join(parts)`. -/
def joinSlash : List String → String
  | [] => ""
  | [x] => x
  | x :: rest => x ++ "/" ++ joinSlash rest

/-- Python `"/".join(full_path.split("/")[:-1])` guarded by
`len(split_parts) > 1`: the parent path of a constraint key, or `none`
when the key contains no slash. -/
def parentPathOf (s : String) : Option String :=
  let parts := splitSlash s
  if 1 < parts.length then some (joinSlash parts.dropLast) else none

/-- Append a (path, info) pair to its parent's group, preserving the
first-encounter group order of `defaultdict(list)`. -/
def addToGroup (groups : List (String × List (String × CInfo)))
    (parent : String) (item : String × CInfo) :
    List (String × List (String × CInfo)) :=
  match groups with
  | [] => [(parent, [item])]
  | (k, items) :: rest =>
      if k == parent then (k, items ++ [item]) :: rest
      else (k, items) :: addToGroup rest parent item

/-- The `children_by_parent` grouping of `detect_container_map`. -/
def childrenByParent (constraints : Constraints) :
    List (String × List (String × CInfo)) :=
  constraints.foldl
    (fun groups kv =>
      match parentPathOf kv.1 with
      | some parent => addToGroup groups parent kv
      | none => groups)
    []

/-- One iteration of the registration loop of `detect_container_map`: a
parent group with exactly one child whose `maxOccurs` exceeds 1 (or is
unbounded) registers `lowercase(child) → (parentTag, lowercase(child))`;
`none` models the `KeyError` the source raises when such a parent path
has no constraint entry of its own. -/
def containerStep (constraints : Constraints)
    (regs : List (String × (String × String)))
    (group : String × List (String × CInfo)) :
    Option (List (String × (String × String))) :=
  match group.2 with
  | [(_, childInfo)] =>
      if maxGtOne childInfo.maxOccurs then
        match getKey constraints group.1 with
        | some parentInfo =>
            some (regs ++
              [(strLower childInfo.name,
                (parentInfo.name, strLower childInfo.name))])
        | none => none
      else some regs
  | _ => some regs

/-- The registration loop of `detect_container_map`, producing the ordered
list of `(lowerChildName, (containerName, lowerChildName))` registrations.
Returns `none` when the source would raise `KeyError` on
`constraints[parent_path]` for a qualifying parent. -/
def detectContainerRegs (constraints : Constraints) :
    Option (List (String × (String × String))) :=
  (childrenByParent constraints).foldlM (containerStep constraints) []

/-- The returned `container_map` dict: registrations folded with dict
overwrite semantics. -/
def detectContainerMap (constraints : Constraints) : Option ContainerMap :=
  (detectContainerRegs constraints).map
    (fun regs => regs.foldl (fun m r => setKey m r.1 r.2) [])

/-! ### Dataframe model and the `merge_tables` parent/child loop -/

/-- A dataframe row: column name → value. -/
abbrev Row : Type := List (String × Val)

/-- A dataframe: an ordered list of rows. -/
abbrev DF : Type := List Row

/-- Distinct values of a column across rows, in first-occurrence order. -/
def distinctColVals (df : DF) (col : String) : List Val :=
  df.foldl
    (fun acc row =>
      let v := getKeyD row col Val.vNone
      if acc.any (fun w => valBeq w v) then acc else acc ++ [v])
    []

/-- Drop a column from a row. -/
def dropCol (row : Row) (col : String) : Row :=
  row.filter (fun kv => !(kv.1 == col))

/-- Model of `child_df.group_by(col).agg([pl.struct(pl.all()).alias(alias_)])`:
one output row per distinct key value, carrying the key column and, under
`alias_`, the list of matching rows as structs (the group key is not
repeated inside the structs). Group order is modelled as first-occurrence
order. -/
def groupStruct (df : DF) (col : String) (alias_ : String) : DF :=
  (distinctColVals df col).map
    (fun v =>
      [(col, v),
       (alias_, Val.vList
         ((df.filter (fun row => valBeq (getKeyD row col Val.vNone) v)).map
           (fun row => Val.vDict (dropCol row col))))])

/-- Model of `left.join(right, on=col, how="left")` against a keyed right
frame (the grouped frame has unique keys, so the first matching right row
is taken); unmatched left rows receive nulls for the right-only columns. -/
def leftJoin (left right : DF) (col : String) : DF :=
  left.map
    (fun row =>
      let v := getKeyD row col Val.vNone
      match right.find? (fun r => valBeq (getKeyD r col Val.vNone) v) with
      | some r => row ++ dropCol r col
      | none =>
          row ++ (right.headD []).filterMap
            (fun kv => if kv.1 == col then none else some (kv.1, Val.vNone)))

/-- One iteration of the inner child loop of `merge_tables`
(`generate_xml_logic1.py` lines 222–240): if the child table is loaded,
group it by the parent's GUID column into a list-of-structs column named
after the child table, left-join that onto the parent into `x`, and set
`df_map[parent_table] = x`. -/
def mergeChildStep (parentTable parentGuidCol : String) (parent_df : DF)
    (m : List (String × DF)) (childTable : String) : List (String × DF) :=
  match getKey m childTable with
  | none => m
  | some child_df =>
      let grouped := groupStruct child_df parentGuidCol childTable
      let x := leftJoin parent_df grouped parentGuidCol
      setKey m parentTable x

/-- One iteration of the outer parent loop of `merge_tables`: skip an
unloaded parent; otherwise run the child loop and then execute the
source's `df_map[parent_table] = parent_df` (line 242), which restores
the original parent frame. The `List String` component is the leaked
`child_tables` loop variable. -/
def mergeParentStep (st : List (String × DF) × List String)
    (parentEntry : String × List String) : List (String × DF) × List String :=
  match getKey st.1 parentEntry.1 with
  | none => st
  | some parent_df =>
      let childTables := parentEntry.2
      let parentGuidCol := getKeyD guid_col_map parentEntry.1 ""
      let dfMap1 := childTables.foldl
        (mergeChildStep parentEntry.1 parentGuidCol parent_df) st.1
      (setKey dfMap1 parentEntry.1 parent_df, childTables)

/-- Embedding of the parent→child merge loop of `merge_tables`
(`generate_xml_logic1.py` lines 204–242), the source's `child_tables`
variable initialised to `[]`. -/
def mergeParentPhase (dfMap : List (String × DF)) :
    List (String × DF) × List String :=
  child_tables_map.foldl mergeParentStep (dfMap, [])

/-! ### Auxiliary segment builders -/

/-- Error channel of the embedded populator: `fuelOut` is the modelling
artifact for exhausted recursion fuel, `runtime` models a raised Python
exception. -/
inductive PErr : Type
  | fuelOut : PErr
  | runtime : PErr

/-- Python `data[0]`: first element of a list, first character of a
nonempty string; anything else raises. -/
def pyIndex0 : Val → Except PErr Val
  | .vList (x :: _) => .ok x
  | .vList [] => .error .runtime
  | .vStr s =>
      match s.toList with
      | [] => .error .runtime
      | c :: _ => .ok (.vStr (String.mk [c]))
  | _ => .error .runtime

/-- Python subscripting `v[key]` with a string key: requires a dict and a
present key (otherwise `TypeError`/`KeyError`). -/
def dictGet (v : Val) (key : String) : Except PErr Val :=
  match v with
  | .vDict fields =>
      match getKey fields key with
      | some w => .ok w
      | none => .error .runtime
  | _ => .error .runtime

/-- lxml `element.set(attr, v)` requires a string value. -/
def asAttrStr : Val → Except PErr String
  | .vStr s => .ok s
  | _ => .error .runtime

/-- lxml `element.text = v` accepts a string or `None`; anything else
raises `TypeError`. -/
def asTextOpt : Val → Except PErr (Option String)
  | .vStr s => .ok (some s)
  | .vNone => .ok none
  | _ => .error .runtime

/-- Python `for i in data`-style iteration for the multifield segment
builder. Iterating a non-list truthy value either raises immediately or
yields items whose `['source_name']` subscript raises on the first item
(the callers guard on truthiness, so such a value is nonempty), hence it
is modelled as an immediate error. -/
def asIterList : Val → Except PErr (List Val)
  | .vList xs => .ok xs
  | _ => .error .runtime

/-- Helper for Python `str.title()`: the Bool tracks whether the previous
character was cased. -/
def pyTitleAux : Bool → List Char → List Char
  | _, [] => []
  | prevCased, c :: cs =>
      if c.isAlpha then
        (if prevCased then c.toLower else c.toUpper) :: pyTitleAux true cs
      else c :: pyTitleAux false cs

/-- Python `s.title()`. -/
def pyTitle (s : String) : String := String.mk (pyTitleAux false s.toList)

/-- Embedding of `create_single_segment_for_sigle_fields` (the built
`Segment` element; in the source it is attached to the parent). -/
def createSingleSegmentSimple (data : Val) (guidCol ty : String) :
    Except PErr XElem := do
  let d0 ← pyIndex0 data
  let g ← dictGet d0 guidCol >>= asAttrStr
  let lu ← dictGet d0 "lastupdated" >>= asTextOpt
  let sn ← dictGet d0 "source_name" >>= asTextOpt
  .ok (XElem.mk "Segment" [("Type", ty)] none
    [XElem.mk "Record" [("GUID", g)] none
      [XElem.mk "LastUpdated" [] lu [],
       XElem.mk "Field" [] none
         [XElem.mk "DerivedName" [] (some "Source Name") [],
          XElem.mk "DerivedValue" [] sn []]]])

/-- The `Field` loop of `create_single_segment_for_mutifield`: one
`Field` per row, preserving row order, all with the same derived label. -/
def segFields (label : String) : List Val → Except PErr (List XElem)
  | [] => .ok []
  | i :: rest => do
      let sn ← dictGet i "source_name" >>= asTextOpt
      let fs ← segFields label rest
      .ok (XElem.mk "Field" [] none
        [XElem.mk "DerivedName" [] (some label) [],
         XElem.mk "DerivedValue" [] sn []] :: fs)

/-- Embedding of `create_single_segment_for_mutifield`. -/
def createSingleSegmentMulti (data : Val) (tableName guidCol ty : String) :
    Except PErr XElem := do
  let d0 ← pyIndex0 data
  let g ← dictGet d0 guidCol >>= asAttrStr
  let lu ← dictGet d0 "lastupdated" >>= asTextOpt
  let items ← asIterList data
  let fs ← segFields (pyTitle (tableName.replace "_" " ")) items
  .ok (XElem.mk "Segment" [("Type", ty)] none
    [XElem.mk "Record" [("GUID", g)] none
      (XElem.mk "LastUpdated" [] lu [] :: fs)])

/-- The simple-table loop of the populator's `additionalsegments` branch:
for each configured table with truthy data on the record, build one
segment. -/
def buildSimpleSegs : List (String × String × String) → Row →
    Except PErr (List XElem)
  | [], _ => .ok []
  | (key, guidCol, ty) :: rest, dataObj => do
      let v := getKeyD dataObj key Val.vNone
      if pyTruthy v then
        let seg ← createSingleSegmentSimple v guidCol ty
        let others ← buildSimpleSegs rest dataObj
        .ok (seg :: others)
      else buildSimpleSegs rest dataObj

/-- The multi-field-table loop of the populator's `additionalsegments`
branch. -/
def buildMultiSegs : List (String × String × String) → Row →
    Except PErr (List XElem)
  | [], _ => .ok []
  | (key, guidCol, ty) :: rest, dataObj => do
      let v := getKeyD dataObj key Val.vNone
      if pyTruthy v then
        let seg ← createSingleSegmentMulti v key guidCol ty
        let others ← buildMultiSegs rest dataObj
        .ok (seg :: others)
      else buildMultiSegs rest dataObj

/-! ### Recursive tree populator, multi-table strategy
(`populate_children` of `generate_xml_logic1.py`).

The function is embedded with explicit fuel; every recursive call moves
one path segment deeper, so fuel exceeding the longest name-map key is
enough (proved below). The returned list holds the children appended to
`parent_xml`. -/

mutual

/-- Fueled embedding of `populate_children` (logic1): iterate the name-map
entries known at `parentPath`; fuel is consumed only when entries exist. -/
def populateFuel1 (fuel : Nat) (parentPath : String) (dataObj : Row)
    (cs : Constraints) (nm : NameMap) (cm : ContainerMap) :
    Except PErr (List XElem) :=
  match getKeyD nm parentPath [] with
  | [] => .ok []
  | e :: es =>
      match fuel with
      | 0 => .error .fuelOut
      | f + 1 => processEntries1 f parentPath dataObj cs nm cm (e :: es)
termination_by (3 * fuel, 0)

/-- The `for child_lower, real_tag in known_map.items()` loop (logic1). -/
def processEntries1 (f : Nat) (parentPath : String) (dataObj : Row)
    (cs : Constraints) (nm : NameMap) (cm : ContainerMap)
    (entries : List (String × String)) : Except PErr (List XElem) :=
  match entries with
  | [] => .ok []
  | (childLower, realTag) :: rest => do
      let xs ← processChild1 f parentPath dataObj cs nm cm childLower realTag
      let ys ← processEntries1 f parentPath dataObj cs nm cm rest
      .ok (xs ++ ys)
termination_by (3 * f + 2, entries.length + 1)

/-- One loop iteration of `populate_children` (logic1): the
`additionalsegments` branch, the missing-field branch (container padding
or single empty child plus recursion with the same record), and the
present-field branch split on the value's shape. -/
def processChild1 (f : Nat) (parentPath : String) (dataObj : Row)
    (cs : Constraints) (nm : NameMap) (cm : ContainerMap)
    (childLower realTag : String) : Except PErr (List XElem) :=
  let fullPath := parentPath ++ "/" ++ realTag
  let bounds := boundsAt cs fullPath
  let minOcc := bounds.1
  let maxOcc := bounds.2
  if childLower == "additionalsegments" then do
    let simpleSegs ← buildSimpleSegs additional_segments_tables_simple dataObj
    let multiSegs ← buildMultiSegs additional_segments_tables_mutifield dataObj
    .ok [XElem.mk "AdditionalSegments" [] none (simpleSegs ++ multiSegs)]
  else if !(hasKey dataObj childLower) then
    if hasKey cm childLower then
      if minOcc != 0 && !(xmlTagOk realTag) then .error .runtime
      else .ok (List.replicate minOcc (XElem.mk realTag [] none []))
    else
      if !(xmlTagOk realTag) then .error .runtime
      else do
        let kids ← populateFuel1 f fullPath dataObj cs nm cm
        .ok [XElem.mk realTag [] none kids]
  else
    let value := getKeyD dataObj childLower Val.vNone
    match value with
    | .vList items => do
        let rend ← renderItems1 f fullPath realTag cs nm cm
          (items.take (usedCount items.length maxOcc))
        if items.length < minOcc then
          if minOcc - items.length != 0 && !(xmlTagOk realTag) then
            .error .runtime
          else
            .ok (rend ++
              List.replicate (minOcc - items.length) (XElem.mk realTag [] none []))
        else .ok rend
    | .vDict fields =>
        if !(xmlTagOk realTag) then .error .runtime
        else do
          let kids ← populateFuel1 f fullPath fields cs nm cm
          .ok [XElem.mk realTag [] none kids]
    | _ =>
        if !(pyTruthy value) then .ok []
        else if !(xmlTagOk realTag) then .error .runtime
        else
          .ok [XElem.mk realTag []
            (if pyIsNone value || pyEqEmptyStr value then none
             else some (pyStr value)) []]
termination_by (3 * f + 2, 0)

/-- The `for i in range(used)` rendering loop of the sequence branch
(logic1): nested records recurse, scalar items become one element each
whose text follows the `None`/empty-string rule. -/
def renderItems1 (f : Nat) (fullPath realTag : String)
    (cs : Constraints) (nm : NameMap) (cm : ContainerMap)
    (items : List Val) : Except PErr (List XElem) :=
  match items with
  | [] => .ok []
  | item :: rest =>
      if !(xmlTagOk realTag) then .error .runtime
      else
        match item with
        | .vDict fields => do
            let kids ← populateFuel1 f fullPath fields cs nm cm
            let more ← renderItems1 f fullPath realTag cs nm cm rest
            .ok (XElem.mk realTag [] none kids :: more)
        | _ => do
            let more ← renderItems1 f fullPath realTag cs nm cm rest
            .ok (XElem.mk realTag []
              (if pyIsNone item || pyEqEmptyStr item then none
               else some (pyStr item)) [] :: more)
termination_by (3 * f + 1, items.length)

end

/-! ### Root-record selection, multi-table strategy
(`build_wco_data_polars_lazy` of `generate_xml_logic1.py`). -/

/-- The three sections of `wco_data`. -/
structure WcoData : Type where
  entities : List Row
  relationships : List Row
  entitydeletes : List Row

/-- Python `pl.col(col) == lit` on a row (a null column compares unequal). -/
def colEq (row : Row) (col lit : String) : Bool :=
  valBeq (getKeyD row col Val.vNone) (.vStr lit)

/-- The auxiliary-segment filter of `build_wco_data_polars_lazy`:
`any(i.get(j) for j in additional_segments_tables_mutifield) and
any(i.get(j) for j in additional_segments_tables_simple)`. -/
def auxSegFilter (row : Row) : Bool :=
  (additional_segments_tables_mutifield.any
      (fun t => pyTruthy (getKeyD row t.1 Val.vNone))) &&
  (additional_segments_tables_simple.any
      (fun t => pyTruthy (getKeyD row t.1 Val.vNone)))

/-- Embedding of `build_wco_data_polars_lazy`: split the merged frame by
`entity_match_type`, apply the auxiliary-segment filter to the matched
records, and keep the `[:1]` slice of each section, exactly as the
source does. -/
def buildWcoData (df : DF) (entitydeletes : Option DF) : WcoData :=
  let entityList := (df.filter (fun r => colEq r "entity_match_type" "matched_entity")).filter auxSegFilter
  let relationsList := df.filter (fun r => colEq r "entity_match_type" "related_entity")
  let entitydeletesList := entitydeletes.getD []
  { entities := entityList.take 1
    relationships := relationsList.take 1
    entitydeletes := entitydeletesList.take 1 }

/-! ### Recursive tree populator, generic attribute-table strategy
(`populate_children` of `generate_xml_logic2.py`).

This variant wraps the whole child loop in `try: ... except Exception:
pass` and additionally wraps each present-field rendering in an inner
`try: ... except Exception: pass`, so a raised exception never escapes:
elements appended before the exception remain, the failing field is
dropped, and (for the outer handler) the remaining children are skipped.
Fuel exhaustion (`none`) is a modelling artifact and propagates. The
`json.loads` library call is modelled by a parameter
`jl : String → Option Val` (`none` = the parse raises). -/

/-- The `try: value = json.loads(value) ... except Exception: pass` step:
a non-string makes `json.loads` raise `TypeError`, a failed parse raises
as well, and in both cases the caught exception leaves `value` unchanged.
The flattening loop building the local `a` in the source is dead code
(`a` is never used) and is omitted. -/
def jsonStep (jl : String → Option Val) (v : Val) : Val :=
  match v with
  | .vStr s =>
      match jl s with
      | some j => j
      | none => v
  | _ => v

/-- The value-selection preamble of the present-field branch (logic2):
consult `all_data` first, attempt a JSON parse on a truthy hit, and fall
back to `data_obj[child_lower]` when the result is falsy. -/
def selectValue (jl : String → Option Val) (allData dataObj : Row)
    (childLower : String) : Val :=
  let v1 :=
    if hasKey allData childLower then
      let g := getKeyD allData childLower Val.vNone
      if pyTruthy g then jsonStep jl g else g
    else Val.vNone
  if !(pyTruthy v1) && hasKey dataObj childLower then
    getKeyD dataObj childLower Val.vNone
  else v1

mutual

/-- Fueled embedding of `populate_children` (logic2). Runtime errors are
swallowed by the source's `except` handlers and never escape; `none`
signals exhausted fuel only. -/
def populateFuel2 (jl : String → Option Val) (fuel : Nat)
    (parentPath : String) (dataObj allData : Row)
    (cs : Constraints) (nm : NameMap) (cm : ContainerMap) :
    Option (List XElem) :=
  match getKeyD nm parentPath [] with
  | [] => some []
  | e :: es =>
      match fuel with
      | 0 => none
      | f + 1 => processEntries2 jl f parentPath dataObj allData cs nm cm (e :: es)
termination_by (4 * fuel, 0)

/-- The child loop of logic2 under the outer `try`: a child whose
processing raises outside the inner `try` aborts the remaining entries
(the outer `except Exception: pass` then returns normally with whatever
was already appended). -/
def processEntries2 (jl : String → Option Val) (f : Nat)
    (parentPath : String) (dataObj allData : Row)
    (cs : Constraints) (nm : NameMap) (cm : ContainerMap)
    (entries : List (String × String)) : Option (List XElem) :=
  match entries with
  | [] => some []
  | (childLower, realTag) :: rest => do
      let r ← processChild2 jl f parentPath dataObj allData cs nm cm childLower realTag
      if r.2 then some r.1
      else do
        let ys ← processEntries2 jl f parentPath dataObj allData cs nm cm rest
        some (r.1 ++ ys)
termination_by (4 * f + 3, entries.length + 1)

/-- One loop iteration of logic2's `populate_children`; the Bool is true
when the iteration raised outside the inner `try` (aborting the loop).
The `entityaddress` placeholder branch of the source is a no-op. Errors
raised inside the present-field rendering are swallowed here (the inner
`except Exception: pass`), keeping the partial output. -/
def processChild2 (jl : String → Option Val) (f : Nat)
    (parentPath : String) (dataObj allData : Row)
    (cs : Constraints) (nm : NameMap) (cm : ContainerMap)
    (childLower realTag : String) : Option (List XElem × Bool) :=
  let fullPath := parentPath ++ "/" ++ realTag
  let bounds := boundsAt cs fullPath
  let minOcc := bounds.1
  if childLower == "additionalsegments" then
    some ([XElem.mk "AdditionalSegments" [] none []], false)
  else if !(hasKey dataObj childLower) then
    if hasKey cm childLower then
      if minOcc != 0 && !(xmlTagOk realTag) then some ([], true)
      else some (List.replicate minOcc (XElem.mk realTag [] none []), false)
    else
      if !(xmlTagOk realTag) then some ([], true)
      else do
        let kids ← populateFuel2 jl f fullPath dataObj allData cs nm cm
        some ([XElem.mk realTag [] none kids], false)
  else
    let value := selectValue jl allData dataObj childLower
    do
      let r ← renderValue2 jl f fullPath realTag bounds.1 bounds.2 value cs nm cm allData
      some (r.1, false)
termination_by (4 * f + 3, 0)

/-- The body of logic2's inner `try` for a present field: the Bool is
true when an exception was raised (and caught by the caller); elements
appended before the exception are kept. -/
def renderValue2 (jl : String → Option Val) (f : Nat)
    (fullPath realTag : String) (minOcc : Nat) (maxOcc : Option Nat)
    (value : Val) (cs : Constraints) (nm : NameMap) (cm : ContainerMap)
    (allData : Row) : Option (List XElem × Bool) :=
  match value with
  | .vList items => do
      let r ← renderItems2 jl f fullPath realTag cs nm cm allData
        (items.take (usedCount items.length maxOcc))
      if r.2 then some (r.1, true)
      else if items.length < minOcc then
        if minOcc - items.length != 0 && !(xmlTagOk realTag) then some (r.1, true)
        else
          some (r.1 ++
            List.replicate (minOcc - items.length) (XElem.mk realTag [] none []), false)
      else some (r.1, false)
  | .vDict fields =>
      if !(xmlTagOk realTag) then some ([], true)
      else do
        let kids ← populateFuel2 jl f fullPath fields allData cs nm cm
        some ([XElem.mk realTag [] none kids], false)
  | _ =>
      if !(pyTruthy value) then some ([], false)
      else if !(xmlTagOk realTag) then some ([], true)
      else
        some ([XElem.mk realTag []
          (if pyIsNone value || pyEqEmptyStr value then none
           else some (pyStr value)) []], false)
termination_by (4 * f + 2, 0)

/-- The sequence rendering loop of logic2; recursion passes the unchanged
`all_data` down, as the source does. -/
def renderItems2 (jl : String → Option Val) (f : Nat)
    (fullPath realTag : String)
    (cs : Constraints) (nm : NameMap) (cm : ContainerMap) (allData : Row)
    (items : List Val) : Option (List XElem × Bool) :=
  match items with
  | [] => some ([], false)
  | item :: rest =>
      if !(xmlTagOk realTag) then some ([], true)
      else
        match item with
        | .vDict fields => do
            let kids ← populateFuel2 jl f fullPath fields allData cs nm cm
            let r ← renderItems2 jl f fullPath realTag cs nm cm allData rest
            some (XElem.mk realTag [] none kids :: r.1, r.2)
        | _ => do
            let r ← renderItems2 jl f fullPath realTag cs nm cm allData rest
            some (XElem.mk realTag []
              (if pyIsNone item || pyEqEmptyStr item then none
               else some (pyStr item)) [] :: r.1, r.2)
termination_by (4 * f + 1, items.length)

end

/-! ### Row materialisation of the generic attribute-table strategy
(`build_xml_from_wco_data` of `generate_xml_logic2.py`, chunk loop). -/

/-- Embedding of the pair-merge loop: starting from the base row, each
`(element, value)` pair is written into the row dict
(`row_dict[element_key] = value_str`), overwriting any same-named base
column; a `none` pair list (no aggregator hit for the GUID) leaves the
row unchanged. The resulting dict is passed to `_build_single_entity` as
both `data` and `all_data`. -/
def mergedRowOf (row : Row) (pairs : Option (List (String × String))) : Row :=
  match pairs with
  | none => row
  | some ps => ps.foldl (fun r p => setKey r p.1 (.vStr p.2)) row

/-- The value the population-time selection produces for a child driven
by a pair-list hit `v`: the JSON-parsed value when the parse succeeds and
is truthy, otherwise the raw pair string. Used to state that the
selection depends only on the pair value. -/
def pairResolved (jl : String → Option Val) (v : String) : Val :=
  let parsed := jsonStep jl (.vStr v)
  if pyTruthy parsed then parsed else .vStr v

/-! ### The synthetic/mock output document (`generate_xml_data`, both
strategies write the identical literal). -/

/-- The literal string written in mock mode (both source files contain
the same literal). Single quotes are spelled via `squote` to keep the
text free of quote characters; the concatenation below is
character-for-character the source literal. -/
def mockXmlData : String :=
  "<?xml version=" ++ squote ++ "1.0" ++ squote ++ " encoding=" ++ squote ++
  "UTF-8" ++ squote ++ "?>\n<WCOData>\n    <Entities>\n        <Entity>\n" ++
  "          <EntityGUID>CD6FEAD6-EBFB-4FAC-BDF1-47E47AA5B2FD</EntityGUID>\n" ++
  "        </Entity>\n    </Entities>\n    <Relationships>\n        <Relationship>\n" ++
  "          <EntityGUID>5248D129-2092-4017-8E87-A068BD65FF56</EntityGUID>\n" ++
  "        </Relationship>\n    <EntityDeletes>\n        <EntityDelete>\n" ++
  "          <EntityGUID>A7B4D9C1-5FB4-41A1-8E22-0D38405C3EC4</EntityGUID>\n" ++
  "        </EntityDelete>\n    </EntityDeletes>\n</WCOData>"

mutual

/-- Extract the markup tags of a document as (isClosing, tagName) pairs,
skipping the `<?...?>` declaration; text content is ignored. -/
def scanTags : List Char → List (Bool × String)
  | [] => []
  | '<' :: '?' :: rest => scanTagsSkipDecl rest
  | '<' :: '/' :: rest => scanTagsInTag true [] rest
  | '<' :: rest => scanTagsInTag false [] rest
  | _ :: rest => scanTags rest

/-- Skip to the end of a `<?...?>` declaration. -/
def scanTagsSkipDecl : List Char → List (Bool × String)
  | [] => []
  | '>' :: rest => scanTags rest
  | _ :: rest => scanTagsSkipDecl rest

/-- Accumulate a tag name up to `>`. -/
def scanTagsInTag (closing : Bool) (acc : List Char) :
    List Char → List (Bool × String)
  | [] => [(closing, String.mk acc.reverse)]
  | '>' :: rest => (closing, String.mk acc.reverse) :: scanTags rest
  | c :: rest => scanTagsInTag closing (c :: acc) rest

end

/-- Check that tags nest properly against a stack of open tags. -/
def tagsBalancedFrom : List String → List (Bool × String) → Bool
  | [], [] => true
  | _ :: _, [] => false
  | stack, (false, t) :: rest => tagsBalancedFrom (t :: stack) rest
  | [], (true, _) :: _ => false
  | top :: stack, (true, t) :: rest =>
      top == t && tagsBalancedFrom stack rest

/-- Well-formedness (proper tag nesting) of a document string. -/
def xmlBalanced (s : String) : Bool :=
  tagsBalancedFrom [] (scanTags s.toList)

/-- Number of opening tags with the given exact name in a document. -/
def countOpenTags (s : String) (t : String) : Nat :=
  ((scanTags s.toList).filter (fun p => !p.1 && p.2 == t)).length

/-- Occurrences of `pat` as a substring (counted at each position). -/
def countSubstrAux (pat : List Char) : List Char → Nat
  | [] => 0
  | c :: rest =>
      (if pat.isPrefixOf (c :: rest) then 1 else 0) + countSubstrAux pat rest

/-- Occurrences of a pattern string inside a document string. -/
def countSubstr (s pat : String) : Nat := countSubstrAux pat.toList s.toList

/-! ### Auxiliary notions used by the theorems -/

/-- Length of the longest key of an association list; any path deeper
than this has no name-map entry, which bounds the populator's recursion
depth. -/
def maxKeyLen {α : Type} (m : List (String × α)) : Nat :=
  m.foldr (fun kv acc => max kv.1.length acc) 0

/-- A value the populator treats as a scalar (neither a Python list nor a
dict). -/
def isScalarVal : Val → Bool
  | .vList _ => false
  | .vDict _ => false
  | _ => true

/-- Concrete matched root record (with rows in every configured
auxiliary-segment table) used to instantiate the selection theorems. -/
def wcoRowA : Row :=
  [("entityguid", .vStr "G1"), ("entity_match_type", .vStr "matched_entity"),
   ("associatedentity", .vList [.vDict [("source_name", .vStr "a")]]),
   ("fatcatreginst", .vList [.vDict [("source_name", .vStr "a")]]),
   ("marijuanaregbus", .vList [.vDict [("source_name", .vStr "a")]]),
   ("ownershiporcontrol", .vList [.vDict [("source_name", .vStr "a")]]),
   ("swiftbicentity", .vList [.vDict [("source_name", .vStr "a")]]),
   ("ihsofacvessels", .vList [.vDict [("source_name", .vStr "a")]]),
   ("ihsregvessels", .vList [.vDict [("source_name", .vStr "a")]]),
   ("uaemsb", .vList [.vDict [("source_name", .vStr "a")]]),
   ("usmsb", .vList [.vDict [("source_name", .vStr "a")]])]

/-- A second such record, distinct from `wcoRowA`. -/
def wcoRowB : Row :=
  [("entityguid", .vStr "G2"), ("entity_match_type", .vStr "matched_entity"),
   ("associatedentity", .vList [.vDict [("source_name", .vStr "b")]]),
   ("fatcatreginst", .vList [.vDict [("source_name", .vStr "b")]]),
   ("marijuanaregbus", .vList [.vDict [("source_name", .vStr "b")]]),
   ("ownershiporcontrol", .vList [.vDict [("source_name", .vStr "b")]]),
   ("swiftbicentity", .vList [.vDict [("source_name", .vStr "b")]]),
   ("ihsofacvessels", .vList [.vDict [("source_name", .vStr "b")]]),
   ("ihsregvessels", .vList [.vDict [("source_name", .vStr "b")]]),
   ("uaemsb", .vList [.vDict [("source_name", .vStr "b")]]),
   ("usmsb", .vList [.vDict [("source_name", .vStr "b")]])]

/-- Example constraint table: one child `F` of `/R` with bounds [1, 1]. -/
def csOneF : Constraints := [("/R/F", ⟨1, some 1, "F"⟩)]

/-- Example constraint table: one child `F` of `/R` with bounds [2, 3]. -/
def csTwoThree : Constraints := [("/R/F", ⟨2, some 3, "F"⟩)]

/-- Example name map resolving field `f` at `/R` to tag `F`. -/
def nmOneF : NameMap := [("/R", [("f", "F")])]

/-- Example constraint table for the container detector: root `/A` with
bounds [0, 1] and its single child `/A/B` with bounds [0, 5]. -/
def csDetectEx : Constraints :=
  [("/A", ⟨0, some 1, "A"⟩), ("/A/B", ⟨0, some 5, "B"⟩)]

/-- Example name map whose tag contains a space, which lxml rejects at
`SubElement` time. -/
def nmBadTag : NameMap := [("/R", [("f", "Bad Tag")])]

/-! ## Theorems -/

/-- Overwriting the same key twice keeps only the second write. -/
lemma setKey_setKey {α : Type} (m : List (String × α)) (k : String) (x y : α) :
    setKey (setKey m k x) k y = setKey m k y := by
  induction m with
  | nil => simp [setKey]
  | cons hd tl ih =>
      obtain ⟨a, b⟩ := hd
      by_cases h : (a == k) = true
      · simp [setKey, h]
      · simp [setKey, h, ih]

/-- Writing back the value already stored at a key is a no-op. -/
lemma setKey_of_getKey {α : Type} (m : List (String × α)) (k : String) (v : α)
    (h : getKey m k = some v) : setKey m k v = m := by
  induction m with
  | nil => simp [getKey] at h
  | cons hd tl ih =>
      obtain ⟨a, b⟩ := hd
      by_cases hk : (a == k) = true
      · simp [getKey, hk] at h
        simp [setKey, hk, h]
      · simp [getKey, hk] at h
        simp [setKey, hk, ih h]

/-- Reading right after writing a key returns the written value. -/
lemma getKey_setKey_self {α : Type} (m : List (String × α)) (k : String) (v : α) :
    getKey (setKey m k v) k = some v := by
  induction m with
  | nil => simp [setKey, getKey]
  | cons hd tl ih =>
      obtain ⟨a, b⟩ := hd
      by_cases hk : (a == k) = true
      · simp [setKey, getKey, hk]
      · simp [setKey, getKey, hk, ih]

/-- Writing one key leaves every other key unchanged. -/
lemma getKey_setKey_ne {α : Type} (m : List (String × α)) (k k2 : String) (v : α)
    (h : (k == k2) = false) : getKey (setKey m k v) k2 = getKey m k2 := by
  induction m with
  | nil => simp [setKey, getKey, h]
  | cons hd tl ih =>
      obtain ⟨a, b⟩ := hd
      by_cases hk : (a == k) = true
      · have hak : a = k := eq_of_beq hk
        subst hak
        simp [setKey, hk, getKey, h]
      · simp [setKey, hk, getKey, ih]

/-- The inner child loop only ever rewrites the parent-table key, so the
write-back of the original parent frame undoes everything it did. -/
lemma childFold_setKey_eq (pt g : String) (pdf : DF) :
    ∀ (cts : List String) (m : List (String × DF)) (d0 : List (String × DF)),
      setKey m pt pdf = d0 →
      setKey (cts.foldl (mergeChildStep pt g pdf) m) pt pdf = d0 := by
  intro cts
  induction cts with
  | nil => intro m d0 h; simpa using h
  | cons ct rest ih =>
      intro m d0 h
      simp only [List.foldl_cons]
      apply ih
      unfold mergeChildStep
      cases hc : getKey m ct with
      | none => simpa using h
      | some cdf => simp [setKey_setKey, h]

/-- Each outer-loop iteration of the merge phase returns the table map to
exactly its incoming state. -/
lemma mergeParentStep_fst (st : List (String × DF) × List String)
    (e : String × List String) : (mergeParentStep st e).1 = st.1 := by
  unfold mergeParentStep
  cases hp : getKey st.1 e.1 with
  | none => rfl
  | some pdf =>
      simp only
      exact childFold_setKey_eq e.1 (getKeyD guid_col_map e.1 "") pdf e.2 st.1 st.1
        (setKey_of_getKey st.1 e.1 pdf hp)

/-- Folding the outer loop over any entry list leaves the map unchanged. -/
lemma foldl_mergeParentStep_fst :
    ∀ (entries : List (String × List String))
      (st : List (String × DF) × List String),
      (entries.foldl mergeParentStep st).1 = st.1 := by
  intro entries
  induction entries with
  | nil => intro st; rfl
  | cons e rest ih =>
      intro st
      simp only [List.foldl_cons]
      rw [ih, mergeParentStep_fst]

/-- C1. The parent→child merge loop of `merge_tables` is the identity on
the table map: for every input `df_map`, after the loop every parent
table equals its original frame, so no parent table ever carries the
nested list-of-structs child column the claim describes — line 242
(`df_map[parent_table] = parent_df`) discards the join computed into `x`
at lines 235–240.  This refutes the claim that the merged parent table
gives each parent row a nested child column, and shows the computed join
is dead code (a code bug). -/
theorem mergeTables_parent_loop_is_identity (dfMap : List (String × DF)) :
    (mergeParentPhase dfMap).1 = dfMap := by
  unfold mergeParentPhase
  exact foldl_mergeParentStep_fst child_tables_map (dfMap, [])

/-- C2. The `entities` section built by `build_wco_data_polars_lazy` is
truncated to at most one record by the source's `entity_list[:1]`: with
two matched root records that both carry rows in every configured
auxiliary-segment table, only the first appears, so the claim that every
such record appears exactly once (and in source order for two or more
records) fails — a code bug introduced by the `[:1]` slice. -/
theorem buildWcoData_truncates_matched_records :
    (buildWcoData [wcoRowA, wcoRowB] none).entities = [wcoRowA]
    ∧ (∀ (df : DF) (ed : Option DF), (buildWcoData df ed).entities.length ≤ 1) := by
  constructor
  · rfl
  · intro df ed
    simp only [buildWcoData]
    exact List.length_take_le 1 _

set_option maxRecDepth 8000 in
/-- C9. The synthetic/mock mode writes a fixed literal that does contain
exactly one `Entity`, one `Relationship` and one `EntityDelete` opening
tag, each with its known `EntityGUID` text — but that literal is not
well-formed: its tags do not nest (the `Relationships` element is never
closed, the `EntityDeletes` block opens inside it), so the claim's
"well-formed document" part fails on the code. -/
theorem mock_document_counts_but_malformed :
    xmlBalanced mockXmlData = false
    ∧ countOpenTags mockXmlData "Entity" = 1
    ∧ countOpenTags mockXmlData "Relationship" = 1
    ∧ countOpenTags mockXmlData "EntityDelete" = 1
    ∧ countSubstr mockXmlData
        "<EntityGUID>CD6FEAD6-EBFB-4FAC-BDF1-47E47AA5B2FD</EntityGUID>" = 1
    ∧ countSubstr mockXmlData
        "<EntityGUID>5248D129-2092-4017-8E87-A068BD65FF56</EntityGUID>" = 1
    ∧ countSubstr mockXmlData
        "<EntityGUID>A7B4D9C1-5FB4-41A1-8E22-0D38405C3EC4</EntityGUID>" = 1 :=
  ⟨by decide, by decide, by decide, by decide, by decide, by decide, by decide⟩

/-- C3 counterexample. With schema bounds [1, 1] at `/R/F` and the record
field `f` holding the empty string, the populator emits zero `F`
elements, which is outside the `[minOccurs, maxOccurs]` interval — the
scalar omission rule wins over the occurrence bounds, refuting the
invariant as stated. -/
theorem occurrence_bounds_violated_for_empty_scalar :
    populateFuel1 2 "/R" [("f", Val.vStr "")] csOneF nmOneF [] = .ok []
    ∧ getKey csOneF "/R/F" = some ⟨1, some 1, "F"⟩
    ∧ countTag [] "F" < 1 := by
  refine ⟨?_, rfl, by decide⟩
  simp [populateFuel1, processEntries1, processChild1, csOneF, nmOneF, getKeyD, getKey,
    hasKey, boundsAt, pyTruthy, Bind.bind, Except.bind]

/-- C4 counterexample. The scalar branch omits every falsy value, not
just null and the empty string: the integer 0 (which is neither `None`
nor `""`) produces zero elements, though the claim requires it to be
rendered. -/
theorem scalar_zero_is_omitted :
    processChild1 1 "/R" [("f", Val.vInt 0)] csOneF nmOneF [] "f" "F" = .ok []
    ∧ pyIsNone (Val.vInt 0) = false
    ∧ pyEqEmptyStr (Val.vInt 0) = false := by
  refine ⟨?_, rfl, rfl⟩
  simp [processChild1, csOneF, nmOneF, getKeyD, getKey, hasKey, boundsAt, pyTruthy,
    Bind.bind, Except.bind]

/-- C4 (amended). For a present scalar field the populator emits exactly
one element with text `str(value)` when the value is truthy under Python
truthiness, and omits the element entirely otherwise — so `None`, `""`,
`0` and `False` are all omitted, and every other scalar is rendered
once. -/
theorem scalar_field_rendering (f : Nat) (p : String) (dObj : Row)
    (cs : Constraints) (nm : NameMap) (cm : ContainerMap) (cl rt : String) (v : Val)
    (hval : getKey dObj cl = some v)
    (hscalar : isScalarVal v = true)
    (hcl : (cl == "additionalsegments") = false)
    (htag : xmlTagOk rt = true) :
    processChild1 f p dObj cs nm cm cl rt =
      .ok (if pyTruthy v then [XElem.mk rt [] (some (pyStr v)) []] else []) := by
  have hk : hasKey dObj cl = true := by simp [hasKey, hval]
  have hg : getKeyD dObj cl Val.vNone = v := by simp [getKeyD, hval]
  rw [processChild1]
  simp only [hcl, Bool.false_eq_true, if_false, hk, Bool.not_true, hg]
  cases v with
  | vNone => simp [pyTruthy]
  | vStr s =>
      by_cases hs : s = ""
      · subst hs; simp [pyTruthy]
      · simp [pyTruthy, hs, htag, pyIsNone, pyEqEmptyStr, pyStr]
  | vInt n =>
      by_cases hn : n = 0
      · subst hn; simp [pyTruthy]
      · simp [pyTruthy, hn, htag, pyIsNone, pyEqEmptyStr]
  | vBool b =>
      cases b with
      | false => simp [pyTruthy]
      | true => simp [pyTruthy, htag, pyIsNone, pyEqEmptyStr]
  | vList l => simp [isScalarVal] at hscalar
  | vDict d => simp [isScalarVal] at hscalar

/-- Inversion for a successful `Except` bind. -/
lemma ok_bind_inv {α β : Type} {a : Except PErr α} {g : α → Except PErr β}
    {r : β} (h : (a >>= g) = .ok r) : ∃ x, a = .ok x ∧ g x = .ok r := by
  cases a with
  | ok x => exact ⟨x, rfl, by simpa [Bind.bind, Except.bind] using h⟩
  | error e => simp [Bind.bind, Except.bind] at h

/-- The sequence rendering loop emits exactly one element per item. -/
lemma renderItems1_length (f : Nat) (q rt : String) (cs : Constraints)
    (nm : NameMap) (cm : ContainerMap) :
    ∀ (items : List Val) (rend : List XElem),
      renderItems1 f q rt cs nm cm items = .ok rend →
      rend.length = items.length := by
  intro items
  induction items with
  | nil =>
      intro rend h
      rw [renderItems1] at h
      cases h
      rfl
  | cons item rest ih =>
      intro rend h
      rw [renderItems1.eq_def] at h
      by_cases ht : xmlTagOk rt = true
      · simp only [ht, Bool.not_true, Bool.false_eq_true, if_false] at h
        cases item with
        | vDict fields =>
            simp only at h
            obtain ⟨kids, hk, h2⟩ := ok_bind_inv h
            obtain ⟨more, hr, h3⟩ := ok_bind_inv h2
            cases h3
            simp [ih more hr]
        | vNone =>
            simp only at h
            obtain ⟨more, hr, h2⟩ := ok_bind_inv h
            cases h2
            simp [ih more hr]
        | vStr s =>
            simp only at h
            obtain ⟨more, hr, h2⟩ := ok_bind_inv h
            cases h2
            simp [ih more hr]
        | vInt n =>
            simp only at h
            obtain ⟨more, hr, h2⟩ := ok_bind_inv h
            cases h2
            simp [ih more hr]
        | vBool b =>
            simp only at h
            obtain ⟨more, hr, h2⟩ := ok_bind_inv h
            cases h2
            simp [ih more hr]
        | vList l =>
            simp only at h
            obtain ⟨more, hr, h2⟩ := ok_bind_inv h
            cases h2
            simp [ih more hr]
      · simp only [eq_false_of_ne_true ht, Bool.not_false, if_true] at h
        cases h

/-- Characterization of the sequence branch of `processChild1`: the
rendered prefix (one element per kept item) followed by the
`minOccurs - n` empty pads. -/
lemma processChild1_list (f : Nat) (p : String) (dObj : Row)
    (cs : Constraints) (nm : NameMap) (cm : ContainerMap)
    (cl rt : String) (items : List Val) (rend : List XElem)
    (hval : getKey dObj cl = some (.vList items))
    (hcl : (cl == "additionalsegments") = false)
    (htag : xmlTagOk rt = true)
    (hrend : renderItems1 f (p ++ "/" ++ rt) rt cs nm cm
        (items.take (usedCount items.length (boundsAt cs (p ++ "/" ++ rt)).2)) =
        .ok rend) :
    processChild1 f p dObj cs nm cm cl rt =
      .ok (rend ++
        List.replicate ((boundsAt cs (p ++ "/" ++ rt)).1 - items.length)
          (XElem.mk rt [] none [])) := by
  have hk : hasKey dObj cl = true := by simp [hasKey, hval]
  have hg : getKeyD dObj cl Val.vNone = Val.vList items := by simp [getKeyD, hval]
  rw [processChild1]
  simp only [hcl, Bool.false_eq_true, if_false, hk, Bool.not_true, hg]
  rw [hrend]
  by_cases hlt : items.length < (boundsAt cs (p ++ "/" ++ rt)).1
  · simp [hlt, htag, Bind.bind, Except.bind]
  · have h0 : (boundsAt cs (p ++ "/" ++ rt)).1 - items.length = 0 := by omega
    simp [hlt, h0, Bind.bind, Except.bind]

/-- C5. For a present sequence field, `processChild1` renders exactly the
elements produced from the first `usedCount n maxOccurs` items
(`min(n, maxOccurs)`, all `n` when unbounded — excess items silently
truncated) in source order, followed by exactly `minOccurs − n` empty
pads when `n < minOccurs`; the rendered prefix has one element per kept
item. -/
theorem seq_truncation_and_padding (f : Nat) (p : String) (dObj : Row)
    (cs : Constraints) (nm : NameMap) (cm : ContainerMap)
    (cl rt : String) (items : List Val) (rend : List XElem)
    (hval : getKey dObj cl = some (.vList items))
    (hcl : (cl == "additionalsegments") = false)
    (htag : xmlTagOk rt = true)
    (hrend : renderItems1 f (p ++ "/" ++ rt) rt cs nm cm
        (items.take (usedCount items.length (boundsAt cs (p ++ "/" ++ rt)).2)) =
        .ok rend) :
    processChild1 f p dObj cs nm cm cl rt =
      .ok (rend ++
        List.replicate ((boundsAt cs (p ++ "/" ++ rt)).1 - items.length)
          (XElem.mk rt [] none []))
    ∧ rend.length = usedCount items.length (boundsAt cs (p ++ "/" ++ rt)).2 := by
  refine ⟨processChild1_list f p dObj cs nm cm cl rt items rend hval hcl htag hrend, ?_⟩
  have hlen := renderItems1_length f (p ++ "/" ++ rt) rt cs nm cm _ rend hrend
  rw [hlen, List.length_take]
  cases hmax : (boundsAt cs (p ++ "/" ++ rt)).2 with
  | none => simp [usedCount]
  | some k => simp only [usedCount]; omega

/-- Witness: an empty sequence under bounds [2, 3] yields exactly the two
empty pad elements. -/
theorem seq_truncation_and_padding_witness :
    (processChild1 0 "/R" [("f", Val.vList [])] csTwoThree nmOneF [] "f" "F" =
      .ok (([] : List XElem) ++
        List.replicate ((boundsAt csTwoThree ("/R" ++ "/" ++ "F")).1 -
          ([] : List Val).length) (XElem.mk "F" [] none []))
    ∧ ([] : List XElem).length =
        usedCount ([] : List Val).length (boundsAt csTwoThree ("/R" ++ "/" ++ "F")).2) :=
  seq_truncation_and_padding 0 "/R" [("f", Val.vList [])] csTwoThree nmOneF []
    "f" "F" [] [] rfl rfl (by decide) (by simp [renderItems1, boundsAt, csTwoThree, getKey, usedCount])

/-- C3 (amended). The `[minOccurs, maxOccurs]` occurrence invariant holds
for sequence-valued fields whenever the declared bounds are consistent
(`minOccurs ≤ maxOccurs`): after truncation and padding, the emitted
count lies within the interval (only a lower bound when `maxOccurs` is
unbounded). The invariant does not extend to scalar, nested-record or
missing fields, which emit 0 or 1 elements regardless of the bounds (see
the counterexample). -/
theorem seq_count_within_declared_bounds (f : Nat) (p : String) (dObj : Row)
    (cs : Constraints) (nm : NameMap) (cm : ContainerMap)
    (cl rt : String) (items : List Val) (rend : List XElem)
    (hval : getKey dObj cl = some (.vList items))
    (hcl : (cl == "additionalsegments") = false)
    (htag : xmlTagOk rt = true)
    (hrend : renderItems1 f (p ++ "/" ++ rt) rt cs nm cm
        (items.take (usedCount items.length (boundsAt cs (p ++ "/" ++ rt)).2)) =
        .ok rend) :
    ∃ out, processChild1 f p dObj cs nm cm cl rt = .ok out
      ∧ ((boundsAt cs (p ++ "/" ++ rt)).2 = none →
          (boundsAt cs (p ++ "/" ++ rt)).1 ≤ out.length)
      ∧ (∀ k, (boundsAt cs (p ++ "/" ++ rt)).2 = some k →
          (boundsAt cs (p ++ "/" ++ rt)).1 ≤ k →
          (boundsAt cs (p ++ "/" ++ rt)).1 ≤ out.length ∧ out.length ≤ k) := by
  refine ⟨_, processChild1_list f p dObj cs nm cm cl rt items rend hval hcl htag hrend,
    ?_, ?_⟩
  · intro hnone
    have hlen := renderItems1_length f (p ++ "/" ++ rt) rt cs nm cm _ rend hrend
    simp only [List.length_append, List.length_replicate, hlen, List.length_take,
      hnone, usedCount]
    omega
  · intro k hsome hmk
    have hlen := renderItems1_length f (p ++ "/" ++ rt) rt cs nm cm _ rend hrend
    simp only [List.length_append, List.length_replicate, hlen, List.length_take,
      hsome, usedCount]
    omega

/-- Witness: the amended bound invariant at concrete bounds [2, 3] with
an empty sequence (the emitted count is 2). -/
theorem seq_count_within_declared_bounds_witness :
    ∃ out, processChild1 0 "/R" [("f", Val.vList [])] csTwoThree nmOneF [] "f" "F" =
        .ok out
      ∧ ((boundsAt csTwoThree ("/R" ++ "/" ++ "F")).2 = none →
          (boundsAt csTwoThree ("/R" ++ "/" ++ "F")).1 ≤ out.length)
      ∧ (∀ k, (boundsAt csTwoThree ("/R" ++ "/" ++ "F")).2 = some k →
          (boundsAt csTwoThree ("/R" ++ "/" ++ "F")).1 ≤ k →
          (boundsAt csTwoThree ("/R" ++ "/" ++ "F")).1 ≤ out.length ∧ out.length ≤ k) :=
  seq_count_within_declared_bounds 0 "/R" [("f", Val.vList [])] csTwoThree nmOneF []
    "f" "F" [] [] rfl rfl (by decide) (by simp [renderItems1, boundsAt, csTwoThree, getKey, usedCount])

/-- Witness for the amended scalar rule on a concrete truthy scalar. -/
theorem scalar_field_rendering_witness :
    processChild1 1 "/R" [("f", Val.vInt 7)] csOneF nmOneF [] "f" "F" =
      .ok (if pyTruthy (Val.vInt 7)
        then [XElem.mk "F" [] (some (pyStr (Val.vInt 7))) []] else []) :=
  scalar_field_rendering 1 "/R" [("f", Val.vInt 7)] csOneF nmOneF [] "f" "F"
    (Val.vInt 7) rfl rfl rfl (by decide)

/-- Inversion for a successful `Option` bind. -/
lemma some_bind_inv {α β : Type} {a : Option α} {g : α → Option β} {r : β}
    (h : (a >>= g) = some r) : ∃ x, a = some x ∧ g x = some r := by
  cases a with
  | some x => exact ⟨x, rfl, by simpa using h⟩
  | none => simp at h

/-- A successful registration step appends either nothing or exactly one
registration justified by a qualifying singleton child group. -/
lemma containerStep_cases (cs : Constraints)
    (regs acc2 : List (String × (String × String)))
    (g : String × List (String × CInfo))
    (h : containerStep cs regs g = some acc2) :
    acc2 = regs ∨
      ∃ cpath cinfo pinfo, g.2 = [(cpath, cinfo)]
        ∧ maxGtOne cinfo.maxOccurs = true
        ∧ getKey cs g.1 = some pinfo
        ∧ acc2 = regs ++
            [(strLower cinfo.name, (pinfo.name, strLower cinfo.name))] := by
  obtain ⟨p, kids⟩ := g
  cases kids with
  | nil =>
      simp only [containerStep] at h
      cases h
      exact Or.inl rfl
  | cons k1 rest =>
      cases rest with
      | nil =>
          obtain ⟨cpath, cinfo⟩ := k1
          simp only [containerStep] at h
          by_cases hm : maxGtOne cinfo.maxOccurs = true
          · simp only [hm, if_true] at h
            cases hg : getKey cs p with
            | none => rw [hg] at h; cases h
            | some pinfo =>
                rw [hg] at h
                injection h with h2
                exact Or.inr ⟨cpath, cinfo, pinfo, rfl, hm, rfl, h2.symm⟩
          · simp only [eq_false_of_ne_true hm, Bool.false_eq_true, if_false] at h
            cases h
            exact Or.inl rfl
      | cons k2 rest2 =>
          simp only [containerStep] at h
          cases h
          exact Or.inl rfl

/-- The registration fold only appends to its accumulator. -/
lemma containerFold_extends (cs : Constraints) :
    ∀ (gs : List (String × List (String × CInfo)))
      (acc regs : List (String × (String × String))),
      List.foldlM (containerStep cs) acc gs = some regs →
      ∃ tail, regs = acc ++ tail := by
  intro gs
  induction gs with
  | nil =>
      intro acc regs h
      simp only [List.foldlM, Option.pure_def, Option.some.injEq] at h
      exact ⟨[], by simp [← h]⟩
  | cons g rest ih =>
      intro acc regs h
      simp only [List.foldlM] at h
      obtain ⟨acc2, h1, h2⟩ := some_bind_inv h
      rcases containerStep_cases cs acc acc2 g h1 with heq | ⟨cpath, cinfo, pinfo, _, _, _, heq⟩
      · rw [heq] at h2
        exact ih acc regs h2
      · obtain ⟨tail, ht⟩ := ih acc2 regs h2
        exact ⟨[(strLower cinfo.name, (pinfo.name, strLower cinfo.name))] ++ tail,
          by rw [ht, heq]; simp⟩

/-- Completeness of the registration loop: every qualifying singleton
group whose parent has a constraint entry produces its registration. -/
lemma containerFold_complete (cs : Constraints) :
    ∀ (gs : List (String × List (String × CInfo)))
      (acc regs : List (String × (String × String))),
      List.foldlM (containerStep cs) acc gs = some regs →
      ∀ p cpath cinfo pinfo,
        (p, [(cpath, cinfo)]) ∈ gs →
        maxGtOne cinfo.maxOccurs = true →
        getKey cs p = some pinfo →
        (strLower cinfo.name, (pinfo.name, strLower cinfo.name)) ∈ regs := by
  intro gs
  induction gs with
  | nil =>
      intro acc regs h p cpath cinfo pinfo hmem
      simp at hmem
  | cons g rest ih =>
      intro acc regs h p cpath cinfo pinfo hmem hmax hlook
      simp only [List.foldlM] at h
      obtain ⟨acc2, h1, h2⟩ := some_bind_inv h
      rcases List.mem_cons.mp hmem with hg | hrest
      · rw [← hg] at h1
        simp only [containerStep, hmax, if_true, hlook] at h1
        cases h1
        obtain ⟨tail, ht⟩ := containerFold_extends cs rest _ regs h2
        rw [ht]
        simp
      · exact ih acc2 regs h2 p cpath cinfo pinfo hrest hmax hlook

/-- Soundness of the registration loop: every registration is justified
by a qualifying singleton child group. -/
lemma containerFold_sound (cs : Constraints) :
    ∀ (gs : List (String × List (String × CInfo)))
      (acc regs : List (String × (String × String))),
      List.foldlM (containerStep cs) acc gs = some regs →
      ∀ r, r ∈ regs → r ∈ acc ∨
        ∃ p cpath cinfo pinfo,
          (p, [(cpath, cinfo)]) ∈ gs ∧
          maxGtOne cinfo.maxOccurs = true ∧
          getKey cs p = some pinfo ∧
          r = (strLower cinfo.name, (pinfo.name, strLower cinfo.name)) := by
  intro gs
  induction gs with
  | nil =>
      intro acc regs h r hr
      simp only [List.foldlM, Option.pure_def, Option.some.injEq] at h
      rw [← h] at hr
      exact Or.inl hr
  | cons g rest ih =>
      intro acc regs h r hr
      simp only [List.foldlM] at h
      obtain ⟨acc2, h1, h2⟩ := some_bind_inv h
      rcases containerStep_cases cs acc acc2 g h1 with heq |
        ⟨cpath, cinfo, pinfo, hkids, hmax, hlook, heq⟩
      · rcases ih acc2 regs h2 r hr with hin | ⟨p, cpath, cinfo, pinfo, hm, hx, hl, hrq⟩
        · rw [heq] at hin
          exact Or.inl hin
        · exact Or.inr ⟨p, cpath, cinfo, pinfo, List.mem_cons_of_mem g hm, hx, hl, hrq⟩
      · rcases ih acc2 regs h2 r hr with hin | ⟨p, cpath2, cinfo2, pinfo2, hm, hx, hl, hrq⟩
        · rw [heq] at hin
          rcases List.mem_append.mp hin with hacc | hr0
          · exact Or.inl hacc
          · have hg : g = (g.1, [(cpath, cinfo)]) := by
              rw [← hkids]
            refine Or.inr ⟨g.1, cpath, cinfo, pinfo, ?_, hmax, hlook, ?_⟩
            · rw [← hg]; exact List.mem_cons_self g rest
            · simpa using hr0
        · exact Or.inr ⟨p, cpath2, cinfo2, pinfo2, List.mem_cons_of_mem g hm, hx, hl, hrq⟩

/-- C6. When `detect_container_map` completes, a registration exists if
and only if the corresponding parent path has exactly one declared child
(a singleton group in `children_by_parent`) whose `maxOccurs` exceeds 1
or is unbounded: every such qualifying parent is registered, and every
registration arises from such a parent — in particular a parent with two
or more declared children is never registered, even when one of its
children repeats. -/
theorem container_detection_iff (cs : Constraints)
    (regs : List (String × (String × String)))
    (hdet : detectContainerRegs cs = some regs) :
    (∀ p cpath cinfo pinfo,
        (p, [(cpath, cinfo)]) ∈ childrenByParent cs →
        maxGtOne cinfo.maxOccurs = true →
        getKey cs p = some pinfo →
        (strLower cinfo.name, (pinfo.name, strLower cinfo.name)) ∈ regs)
    ∧ (∀ r, r ∈ regs →
        ∃ p cpath cinfo pinfo,
          (p, [(cpath, cinfo)]) ∈ childrenByParent cs ∧
          maxGtOne cinfo.maxOccurs = true ∧
          getKey cs p = some pinfo ∧
          r = (strLower cinfo.name, (pinfo.name, strLower cinfo.name))) := by
  unfold detectContainerRegs at hdet
  constructor
  · intro p cpath cinfo pinfo hmem hmax hlook
    exact containerFold_complete cs _ [] regs hdet p cpath cinfo pinfo hmem hmax hlook
  · intro r hr
    rcases containerFold_sound cs _ [] regs hdet r hr with hin | hw
    · simp at hin
    · exact hw

/-- Witness: on the concrete schema with root `/A` (bounds [0, 1]) and
single child `/A/B` (bounds [0, 5]), the detector succeeds and registers
the `B` child. -/
theorem container_detection_iff_witness :
    detectContainerRegs csDetectEx = some [("b", ("A", "b"))]
    ∧ ("b", ("A", "b")) ∈ [("b", ("A", "b"))] := by
  have hd : detectContainerRegs csDetectEx = some [("b", ("A", "b"))] := by decide
  refine ⟨hd, ?_⟩
  have := (container_detection_iff csDetectEx [("b", ("A", "b"))] hd).1
    "/A" "/A/B" ⟨0, some 5, "B"⟩ ⟨0, some 1, "A"⟩ (by decide) (by decide) (by decide)
  exact this

/-- C7. The generic attribute-table populator swallows per-field
rendering failures instead of surfacing them: with a name-map tag lxml
rejects (`"Bad Tag"`), the inner rendering of a present truthy scalar
raises (the Bool `true` in the `renderValue2` result), yet
`populateFuel2` returns normally with the field silently dropped and no
error in its result — there is no error channel at all in the source's
`populate_children`, which ends in `except Exception: pass`. This
refutes the claim that such failures are surfaced as typed structural
errors. -/
theorem attr_strategy_swallows_field_errors :
    renderValue2 (fun _ => none) 1 ("/R" ++ "/" ++ "Bad Tag") "Bad Tag" 0 (some 1)
      (Val.vStr "x") [] nmBadTag [] [("f", Val.vStr "x")] = some ([], true)
    ∧ populateFuel2 (fun _ => none) 3 "/R" [("f", Val.vStr "x")]
        [("f", Val.vStr "x")] [] nmBadTag [] = some [] := by
  have hb : xmlTagOk "Bad Tag" = false := by decide
  constructor
  · simp [renderValue2, pyTruthy, hb]
  · simp [populateFuel2, processEntries2, processChild2, selectValue, jsonStep,
      renderValue2, nmBadTag, getKey, getKeyD, hasKey, boundsAt, pyTruthy, hb,
      Bind.bind, Option.bind]

/-- A fold of pair writes that never touches `cl` leaves `cl`'s binding
unchanged. -/
lemma getKey_foldl_setKey_of_no_hit (cl : String) :
    ∀ (ps : List (String × String)) (r0 : Row),
      (∀ q ∈ ps, q.1 ≠ cl) →
      getKey (ps.foldl (fun r p => setKey r p.1 (Val.vStr p.2)) r0) cl =
        getKey r0 cl := by
  intro ps
  induction ps with
  | nil => intro r0 _; rfl
  | cons q rest ih =>
      intro r0 h
      simp only [List.foldl_cons]
      rw [ih _ (fun x hx => h x (List.mem_cons_of_mem q hx))]
      apply getKey_setKey_ne
      exact beq_eq_false_iff_ne.mpr (h q (List.mem_cons_self q rest))

/-- If a key has no binding, no list entry carries it. -/
lemma getKey_eq_none_forall {α : Type} :
    ∀ (ps : List (String × α)) (cl : String),
      getKey ps cl = none → ∀ q ∈ ps, q.1 ≠ cl := by
  intro ps cl
  induction ps with
  | nil => intro _ q hq; simp at hq
  | cons p rest ih =>
      intro h q hq
      obtain ⟨k, v⟩ := p
      by_cases hk : (k == cl) = true
      · simp [getKey, hk] at h
      · simp only [getKey, hk, Bool.false_eq_true, if_false] at h
        rcases List.mem_cons.mp hq with hqe | hq2
        · subst hqe
          intro he
          exact hk (beq_iff_eq.mpr he)
        · exact ih h q hq2

/-- Merging a pair list with distinct element names overwrites the base
column: the merged row binds a hit name to the pair's value. -/
lemma mergedRow_pair_hit :
    ∀ (ps : List (String × String)) (row : Row) (cl v : String),
      (ps.map Prod.fst).Nodup → getKey ps cl = some v →
      getKey (mergedRowOf row (some ps)) cl = some (.vStr v) := by
  intro ps
  induction ps with
  | nil => intro row cl v _ hp; simp [getKey] at hp
  | cons p rest ih =>
      intro row cl v hnd hp
      obtain ⟨k, w⟩ := p
      simp only [mergedRowOf, List.foldl_cons]
      by_cases hk : (k == cl) = true
      · have hkc : k = cl := eq_of_beq hk
        subst hkc
        simp only [getKey, hk, if_true] at hp
        injection hp with hp2
        subst hp2
        have hcons : (∀ x : String, (k, x) ∉ rest) ∧
            (List.map Prod.fst rest).Nodup := by simpa using hnd
        have hno : ∀ q ∈ rest, q.1 ≠ k := by
          intro q hq he
          subst he
          exact hcons.1 q.2 (by simpa using hq)
        rw [getKey_foldl_setKey_of_no_hit k rest _ hno, getKey_setKey_self]
      · simp only [getKey, hk, Bool.false_eq_true, if_false] at hp
        have hcons : (∀ x : String, (k, x) ∉ rest) ∧
            (List.map Prod.fst rest).Nodup := by simpa using hnd
        have := ih (setKey row k (Val.vStr w)) cl v hcons.2 hp
        simpa [mergedRowOf] using this

/-- A name with no pair hit keeps its base-column binding after the
merge. -/
lemma mergedRow_no_hit (ps : List (String × String)) (row : Row) (cl : String)
    (hp : getKey ps cl = none) :
    getKey (mergedRowOf row (some ps)) cl = getKey row cl := by
  simp only [mergedRowOf]
  exact getKey_foldl_setKey_of_no_hit cl ps row (getKey_eq_none_forall ps cl hp)

/-- C8. The pair list wins over a same-named base column. When the
aggregated `(element, value)` pair list has a hit for a child name
(element names are distinct after the group-by), the merged row binds
that name to the pair's value (the base column is overwritten at merge
time), and — for a non-empty pair value — the population-time selection
yields `pairResolved` of the pair value alone (its JSON parse when that
succeeds and is truthy, else the raw pair string), never the base-column
value. The base column's binding survives exactly when the name has no
pair hit. -/
theorem pair_list_priority (jl : String → Option Val) (row : Row)
    (ps : List (String × String)) (cl : String)
    (hnodup : (ps.map Prod.fst).Nodup) :
    (∀ v, getKey ps cl = some v →
        getKey (mergedRowOf row (some ps)) cl = some (.vStr v)
        ∧ (v ≠ "" →
            selectValue jl (mergedRowOf row (some ps)) (mergedRowOf row (some ps)) cl
              = pairResolved jl v))
    ∧ (getKey ps cl = none →
        getKey (mergedRowOf row (some ps)) cl = getKey row cl) := by
  constructor
  · intro v hv
    have hmg := mergedRow_pair_hit ps row cl v hnodup hv
    refine ⟨hmg, ?_⟩
    intro hne
    have hkk : hasKey (mergedRowOf row (some ps)) cl = true := by
      simp [hasKey, hmg]
    have hgd : getKeyD (mergedRowOf row (some ps)) cl Val.vNone = Val.vStr v := by
      simp [getKeyD, hmg]
    have htr : pyTruthy (Val.vStr v) = true := by simp [pyTruthy, hne]
    simp only [selectValue, hkk, if_true, hgd, htr, pairResolved]
    by_cases hjp : pyTruthy (jsonStep jl (Val.vStr v)) = true
    · simp [hjp]
    · simp [eq_false_of_ne_true hjp, hgd, hkk]
  · intro hnone
    exact mergedRow_no_hit ps row cl hnone

/-- Witness: a concrete row with base column `f = "col"` and pair hit
`("f", "hello")` resolves to the pair value. -/
theorem pair_list_priority_witness :
    getKey (mergedRowOf [("f", Val.vStr "col")] (some [("f", "hello")])) "f"
      = some (Val.vStr "hello")
    ∧ selectValue (fun _ => none)
        (mergedRowOf [("f", Val.vStr "col")] (some [("f", "hello")]))
        (mergedRowOf [("f", Val.vStr "col")] (some [("f", "hello")])) "f"
      = pairResolved (fun _ => none) "hello" := by
  have h := (pair_list_priority (fun _ => none) [("f", Val.vStr "col")]
    [("f", "hello")] "f" (by decide)).1 "hello" rfl
  exact ⟨h.1, h.2 (by decide)⟩

/-- Binding never introduces a fuel error when neither side does. -/
lemma except_ne_fuel_bind {α β : Type} {a : Except PErr α} {g : α → Except PErr β}
    (ha : a ≠ .error .fuelOut) (hg : ∀ x, g x ≠ .error .fuelOut) :
    (a >>= g) ≠ .error .fuelOut := by
  cases a with
  | ok x => simpa [Bind.bind, Except.bind] using hg x
  | error e => simpa [Bind.bind, Except.bind] using ha

/-- Option binding stays `some` when both sides do. -/
lemma option_ne_none_bind {α β : Type} {a : Option α} {g : α → Option β}
    (ha : a ≠ none) (hg : ∀ x, g x ≠ none) : (a >>= g) ≠ none := by
  cases a with
  | some x => simpa using hg x
  | none => exact absurd rfl ha

/-- Python indexing can only raise a runtime error. -/
lemma pyIndex0_ne_fuel (v : Val) : pyIndex0 v ≠ .error .fuelOut := by
  cases v with
  | vList l => cases l <;> simp [pyIndex0]
  | vStr s => cases hl : s.data <;> simp [pyIndex0, String.toList, hl]
  | vNone => simp [pyIndex0]
  | vInt n => simp [pyIndex0]
  | vBool b => simp [pyIndex0]
  | vDict fields => simp [pyIndex0]

/-- Dict subscripting can only raise a runtime error. -/
lemma dictGet_ne_fuel (v : Val) (key : String) : dictGet v key ≠ .error .fuelOut := by
  cases v with
  | vDict fields => cases hg : getKey fields key <;> simp [dictGet, hg]
  | vNone => simp [dictGet]
  | vStr s => simp [dictGet]
  | vInt n => simp [dictGet]
  | vBool b => simp [dictGet]
  | vList l => simp [dictGet]

/-- Attribute coercion can only raise a runtime error. -/
lemma asAttrStr_ne_fuel (v : Val) : asAttrStr v ≠ .error .fuelOut := by
  cases v <;> simp [asAttrStr]

/-- Text coercion can only raise a runtime error. -/
lemma asTextOpt_ne_fuel (v : Val) : asTextOpt v ≠ .error .fuelOut := by
  cases v <;> simp [asTextOpt]

/-- Iteration can only raise a runtime error. -/
lemma asIterList_ne_fuel (v : Val) : asIterList v ≠ .error .fuelOut := by
  cases v <;> simp [asIterList]

/-- The field loop of the multifield segment builder never consumes
fuel. -/
lemma segFields_ne_fuel (label : String) :
    ∀ items, segFields label items ≠ .error .fuelOut := by
  intro items
  induction items with
  | nil => simp [segFields]
  | cons i rest ih =>
      rw [segFields]
      refine except_ne_fuel_bind
        (except_ne_fuel_bind (dictGet_ne_fuel i "source_name") asTextOpt_ne_fuel) ?_
      intro sn
      refine except_ne_fuel_bind ih ?_
      intro fs
      simp

/-- The simple segment builder never consumes fuel. -/
lemma createSingleSegmentSimple_ne_fuel (data : Val) (guidCol ty : String) :
    createSingleSegmentSimple data guidCol ty ≠ .error .fuelOut := by
  rw [createSingleSegmentSimple]
  refine except_ne_fuel_bind (pyIndex0_ne_fuel data) ?_
  intro d0
  refine except_ne_fuel_bind
    (except_ne_fuel_bind (dictGet_ne_fuel d0 guidCol) asAttrStr_ne_fuel) ?_
  intro g
  refine except_ne_fuel_bind
    (except_ne_fuel_bind (dictGet_ne_fuel d0 "lastupdated") asTextOpt_ne_fuel) ?_
  intro lu
  refine except_ne_fuel_bind
    (except_ne_fuel_bind (dictGet_ne_fuel d0 "source_name") asTextOpt_ne_fuel) ?_
  intro sn
  simp

/-- The multifield segment builder never consumes fuel. -/
lemma createSingleSegmentMulti_ne_fuel (data : Val) (tableName guidCol ty : String) :
    createSingleSegmentMulti data tableName guidCol ty ≠ .error .fuelOut := by
  rw [createSingleSegmentMulti]
  refine except_ne_fuel_bind (pyIndex0_ne_fuel data) ?_
  intro d0
  refine except_ne_fuel_bind
    (except_ne_fuel_bind (dictGet_ne_fuel d0 guidCol) asAttrStr_ne_fuel) ?_
  intro g
  refine except_ne_fuel_bind
    (except_ne_fuel_bind (dictGet_ne_fuel d0 "lastupdated") asTextOpt_ne_fuel) ?_
  intro lu
  refine except_ne_fuel_bind (asIterList_ne_fuel data) ?_
  intro items
  refine except_ne_fuel_bind (segFields_ne_fuel _ items) ?_
  intro fs
  simp

/-- The simple-table segment loop never consumes fuel. -/
lemma buildSimpleSegs_ne_fuel :
    ∀ (ts : List (String × String × String)) (d : Row),
      buildSimpleSegs ts d ≠ .error .fuelOut := by
  intro ts
  induction ts with
  | nil => intro d; simp [buildSimpleSegs]
  | cons t rest ih =>
      intro d
      obtain ⟨key, guidCol, ty⟩ := t
      rw [buildSimpleSegs]
      by_cases hp : pyTruthy (getKeyD d key Val.vNone) = true
      · simp only [hp, if_true]
        refine except_ne_fuel_bind (createSingleSegmentSimple_ne_fuel _ _ _) ?_
        intro seg
        refine except_ne_fuel_bind (ih d) ?_
        intro others
        simp
      · simp only [eq_false_of_ne_true hp, Bool.false_eq_true, if_false]
        exact ih d

/-- The multifield-table segment loop never consumes fuel. -/
lemma buildMultiSegs_ne_fuel :
    ∀ (ts : List (String × String × String)) (d : Row),
      buildMultiSegs ts d ≠ .error .fuelOut := by
  intro ts
  induction ts with
  | nil => intro d; simp [buildMultiSegs]
  | cons t rest ih =>
      intro d
      obtain ⟨key, guidCol, ty⟩ := t
      rw [buildMultiSegs]
      by_cases hp : pyTruthy (getKeyD d key Val.vNone) = true
      · simp only [hp, if_true]
        refine except_ne_fuel_bind (createSingleSegmentMulti_ne_fuel _ _ _ _) ?_
        intro seg
        refine except_ne_fuel_bind (ih d) ?_
        intro others
        simp
      · simp only [eq_false_of_ne_true hp, Bool.false_eq_true, if_false]
        exact ih d

/-- Any key with a binding is no longer than the longest key. -/
lemma length_le_maxKeyLen {α : Type} :
    ∀ (m : List (String × α)) (k : String),
      getKey m k ≠ none → k.length ≤ maxKeyLen m := by
  intro m k
  induction m with
  | nil => intro h; simp [getKey] at h
  | cons p rest ih =>
      intro h
      obtain ⟨a, b⟩ := p
      show k.length ≤ max a.length (maxKeyLen rest)
      by_cases hk : (a == k) = true
      · have : a = k := eq_of_beq hk
        subst this
        exact le_max_left _ _
      · simp only [getKey, hk, Bool.false_eq_true, if_false] at h
        exact le_trans (ih h) (le_max_right _ _)

/-- A nonempty name-map hit bounds the path length. -/
lemma known_length_le {α : Type} (nm : List (String × List α)) (p : String)
    (e : α) (es : List α) (hknown : getKeyD nm p [] = e :: es) :
    p.length ≤ maxKeyLen nm := by
  apply length_le_maxKeyLen
  intro hn
  rw [getKeyD, hn] at hknown
  simp at hknown

/-- Length of the extended schema path. -/
lemma fullPath_length (p sep rt : String) :
    (p ++ sep ++ rt).length = p.length + sep.length + rt.length := by
  simp [String.length_append]

/-- Given the populate bound at the same fuel level, the sequence
rendering loop (logic1) never runs out of fuel. -/
lemma renderItems1_no_fuel_of (g : Nat)
    (hL1 : ∀ (p : String) (d : Row) (cs : Constraints) (nm : NameMap)
      (cm : ContainerMap), maxKeyLen nm < p.length + g →
      populateFuel1 g p d cs nm cm ≠ .error .fuelOut) :
    ∀ (q rt : String) (cs : Constraints) (nm : NameMap) (cm : ContainerMap)
      (items : List Val), maxKeyLen nm < q.length + g →
      renderItems1 g q rt cs nm cm items ≠ .error .fuelOut := by
  intro q rt cs nm cm items hb
  induction items with
  | nil => rw [renderItems1]; simp
  | cons item rest ih =>
      rw [renderItems1.eq_def]
      by_cases ht : xmlTagOk rt = true
      · simp only [ht, Bool.not_true, Bool.false_eq_true, if_false]
        cases item with
        | vDict fields =>
            simp only
            refine except_ne_fuel_bind (hL1 q fields cs nm cm hb) ?_
            intro kids
            refine except_ne_fuel_bind ih ?_
            intro more
            simp
        | vNone =>
            simp only
            refine except_ne_fuel_bind ih ?_
            intro more
            simp
        | vStr s =>
            simp only
            refine except_ne_fuel_bind ih ?_
            intro more
            simp
        | vInt n =>
            simp only
            refine except_ne_fuel_bind ih ?_
            intro more
            simp
        | vBool b =>
            simp only
            refine except_ne_fuel_bind ih ?_
            intro more
            simp
        | vList l =>
            simp only
            refine except_ne_fuel_bind ih ?_
            intro more
            simp
      · simp [eq_false_of_ne_true ht]

/-- Given the populate and rendering bounds at the same fuel level, one
child iteration (logic1) never runs out of fuel. -/
lemma processChild1_no_fuel_of (g : Nat)
    (hL1 : ∀ (p : String) (d : Row) (cs : Constraints) (nm : NameMap)
      (cm : ContainerMap), maxKeyLen nm < p.length + g →
      populateFuel1 g p d cs nm cm ≠ .error .fuelOut)
    (hL2 : ∀ (q rt : String) (cs : Constraints) (nm : NameMap) (cm : ContainerMap)
      (items : List Val), maxKeyLen nm < q.length + g →
      renderItems1 g q rt cs nm cm items ≠ .error .fuelOut) :
    ∀ (p : String) (d : Row) (cs : Constraints) (nm : NameMap) (cm : ContainerMap)
      (cl rt : String), maxKeyLen nm ≤ p.length + g →
      processChild1 g p d cs nm cm cl rt ≠ .error .fuelOut := by
  intro p d cs nm cm cl rt hb
  have hslash : ("/" : String).length = 1 := rfl
  have hfull : maxKeyLen nm < (p ++ "/" ++ rt).length + g := by
    rw [fullPath_length, hslash]
    omega
  rw [processChild1]
  by_cases hseg : (cl == "additionalsegments") = true
  · simp only [hseg, if_true]
    refine except_ne_fuel_bind (buildSimpleSegs_ne_fuel _ d) ?_
    intro s
    refine except_ne_fuel_bind (buildMultiSegs_ne_fuel _ d) ?_
    intro m2
    simp
  · simp only [eq_false_of_ne_true hseg, Bool.false_eq_true, if_false]
    by_cases hmem : hasKey d cl = true
    · simp only [hmem, Bool.not_true, Bool.false_eq_true, if_false]
      cases hv : getKeyD d cl Val.vNone with
      | vList items =>
          simp only
          refine except_ne_fuel_bind (hL2 (p ++ "/" ++ rt) rt cs nm cm _ hfull) ?_
          intro rend
          split
          · split
            · simp
            · simp
          · simp
      | vDict fields =>
          simp only
          by_cases htag : xmlTagOk rt = true
          · simp only [htag, Bool.not_true, Bool.false_eq_true, if_false]
            refine except_ne_fuel_bind (hL1 _ fields cs nm cm hfull) ?_
            intro kids
            simp
          · simp [eq_false_of_ne_true htag]
      | vNone =>
          simp only
          split
          · simp
          · split
            · simp
            · simp
      | vStr s =>
          simp only
          split
          · simp
          · split
            · simp
            · simp
      | vInt n =>
          simp only
          split
          · simp
          · split
            · simp
            · simp
      | vBool b =>
          simp only
          split
          · simp
          · split
            · simp
            · simp
    · simp only [eq_false_of_ne_true hmem, Bool.not_false, if_true]
      by_cases hcm : hasKey cm cl = true
      · simp only [hcm, if_true]
        split
        · simp
        · simp
      · simp only [eq_false_of_ne_true hcm, Bool.false_eq_true, if_false]
        by_cases htag : xmlTagOk rt = true
        · simp only [htag, Bool.not_true, Bool.false_eq_true, if_false]
          refine except_ne_fuel_bind (hL1 _ d cs nm cm hfull) ?_
          intro kids
          simp
        · simp [eq_false_of_ne_true htag]

/-- Given the per-child bound at the same fuel level, the child loop
(logic1) never runs out of fuel. -/
lemma processEntries1_no_fuel_of (g : Nat)
    (hL3 : ∀ (p : String) (d : Row) (cs : Constraints) (nm : NameMap)
      (cm : ContainerMap) (cl rt : String), maxKeyLen nm ≤ p.length + g →
      processChild1 g p d cs nm cm cl rt ≠ .error .fuelOut) :
    ∀ (p : String) (d : Row) (cs : Constraints) (nm : NameMap) (cm : ContainerMap)
      (entries : List (String × String)), maxKeyLen nm ≤ p.length + g →
      processEntries1 g p d cs nm cm entries ≠ .error .fuelOut := by
  intro p d cs nm cm entries hb
  induction entries with
  | nil => rw [processEntries1]; simp
  | cons e rest ih =>
      obtain ⟨cl, rt⟩ := e
      rw [processEntries1]
      refine except_ne_fuel_bind (hL3 p d cs nm cm cl rt hb) ?_
      intro xs
      refine except_ne_fuel_bind ih ?_
      intro ys
      simp

/-- The logic1 populator completes whenever the fuel exceeds the longest
name-map key minus the current path length. -/
lemma populate1_no_fuel :
    ∀ (fuel : Nat) (p : String) (d : Row) (cs : Constraints) (nm : NameMap)
      (cm : ContainerMap), maxKeyLen nm < p.length + fuel →
      populateFuel1 fuel p d cs nm cm ≠ .error .fuelOut := by
  intro fuel
  induction fuel with
  | zero =>
      intro p d cs nm cm hb
      rw [populateFuel1]
      cases hknown : getKeyD nm p [] with
      | nil => simp
      | cons e es =>
          exfalso
          have := known_length_le nm p e es hknown
          omega
  | succ f ih =>
      intro p d cs nm cm hb
      rw [populateFuel1]
      cases hknown : getKeyD nm p [] with
      | nil => simp
      | cons e es =>
          simp only
          have hL2 := renderItems1_no_fuel_of f ih
          have hL3 := processChild1_no_fuel_of f ih hL2
          have hL4 := processEntries1_no_fuel_of f hL3
          apply hL4
          have := known_length_le nm p e es hknown
          omega

/-- Given the populate bound at the same fuel level, the sequence
rendering loop (logic2) never runs out of fuel. -/
lemma renderItems2_no_none_of (jl : String → Option Val) (g : Nat)
    (hM1 : ∀ (p : String) (d ad : Row) (cs : Constraints) (nm : NameMap)
      (cm : ContainerMap), maxKeyLen nm < p.length + g →
      populateFuel2 jl g p d ad cs nm cm ≠ none) :
    ∀ (q rt : String) (cs : Constraints) (nm : NameMap) (cm : ContainerMap)
      (ad : Row) (items : List Val), maxKeyLen nm < q.length + g →
      renderItems2 jl g q rt cs nm cm ad items ≠ none := by
  intro q rt cs nm cm ad items hb
  induction items with
  | nil => rw [renderItems2]; simp
  | cons item rest ih =>
      rw [renderItems2.eq_def]
      by_cases ht : xmlTagOk rt = true
      · simp only [ht, Bool.not_true, Bool.false_eq_true, if_false]
        cases item with
        | vDict fields =>
            simp only
            refine option_ne_none_bind (hM1 q fields ad cs nm cm hb) ?_
            intro kids
            refine option_ne_none_bind ih ?_
            intro r
            simp
        | vNone =>
            simp only
            refine option_ne_none_bind ih ?_
            intro r
            simp
        | vStr s =>
            simp only
            refine option_ne_none_bind ih ?_
            intro r
            simp
        | vInt n =>
            simp only
            refine option_ne_none_bind ih ?_
            intro r
            simp
        | vBool b =>
            simp only
            refine option_ne_none_bind ih ?_
            intro r
            simp
        | vList l =>
            simp only
            refine option_ne_none_bind ih ?_
            intro r
            simp
      · simp [eq_false_of_ne_true ht]

/-- Given the populate and rendering bounds at the same fuel level, the
inner rendering of a present field (logic2) never runs out of fuel. -/
lemma renderValue2_no_none_of (jl : String → Option Val) (g : Nat)
    (hM1 : ∀ (p : String) (d ad : Row) (cs : Constraints) (nm : NameMap)
      (cm : ContainerMap), maxKeyLen nm < p.length + g →
      populateFuel2 jl g p d ad cs nm cm ≠ none)
    (hM2 : ∀ (q rt : String) (cs : Constraints) (nm : NameMap) (cm : ContainerMap)
      (ad : Row) (items : List Val), maxKeyLen nm < q.length + g →
      renderItems2 jl g q rt cs nm cm ad items ≠ none) :
    ∀ (q rt : String) (minOcc : Nat) (maxOcc : Option Nat) (value : Val)
      (cs : Constraints) (nm : NameMap) (cm : ContainerMap) (ad : Row),
      maxKeyLen nm < q.length + g →
      renderValue2 jl g q rt minOcc maxOcc value cs nm cm ad ≠ none := by
  intro q rt minOcc maxOcc value cs nm cm ad hb
  rw [renderValue2.eq_def]
  cases value with
  | vList items =>
      simp only
      refine option_ne_none_bind (hM2 q rt cs nm cm ad _ hb) ?_
      intro r
      split
      · simp
      · split
        · split
          · simp
          · simp
        · simp
  | vDict fields =>
      simp only
      by_cases htag : xmlTagOk rt = true
      · simp only [htag, Bool.not_true, Bool.false_eq_true, if_false]
        refine option_ne_none_bind (hM1 q fields ad cs nm cm hb) ?_
        intro kids
        simp
      · simp [eq_false_of_ne_true htag]
  | vNone =>
      simp only
      split
      · simp
      · split
        · simp
        · simp
  | vStr s =>
      simp only
      split
      · simp
      · split
        · simp
        · simp
  | vInt n =>
      simp only
      split
      · simp
      · split
        · simp
        · simp
  | vBool b =>
      simp only
      split
      · simp
      · split
        · simp
        · simp

/-- Given the populate and rendering bounds at the same fuel level, one
child iteration (logic2) never runs out of fuel. -/
lemma processChild2_no_none_of (jl : String → Option Val) (g : Nat)
    (hM1 : ∀ (p : String) (d ad : Row) (cs : Constraints) (nm : NameMap)
      (cm : ContainerMap), maxKeyLen nm < p.length + g →
      populateFuel2 jl g p d ad cs nm cm ≠ none)
    (hRV : ∀ (q rt : String) (minOcc : Nat) (maxOcc : Option Nat) (value : Val)
      (cs : Constraints) (nm : NameMap) (cm : ContainerMap) (ad : Row),
      maxKeyLen nm < q.length + g →
      renderValue2 jl g q rt minOcc maxOcc value cs nm cm ad ≠ none) :
    ∀ (p : String) (d ad : Row) (cs : Constraints) (nm : NameMap)
      (cm : ContainerMap) (cl rt : String), maxKeyLen nm ≤ p.length + g →
      processChild2 jl g p d ad cs nm cm cl rt ≠ none := by
  intro p d ad cs nm cm cl rt hb
  have hslash : ("/" : String).length = 1 := rfl
  have hfull : maxKeyLen nm < (p ++ "/" ++ rt).length + g := by
    rw [fullPath_length, hslash]
    omega
  rw [processChild2]
  by_cases hseg : (cl == "additionalsegments") = true
  · simp [hseg]
  · simp only [eq_false_of_ne_true hseg, Bool.false_eq_true, if_false]
    by_cases hmem : hasKey d cl = true
    · simp only [hmem, Bool.not_true, Bool.false_eq_true, if_false]
      refine option_ne_none_bind (hRV (p ++ "/" ++ rt) rt _ _ _ cs nm cm ad hfull) ?_
      intro r
      simp
    · simp only [eq_false_of_ne_true hmem, Bool.not_false, if_true]
      by_cases hcm : hasKey cm cl = true
      · simp only [hcm, if_true]
        split
        · simp
        · simp
      · simp only [eq_false_of_ne_true hcm, Bool.false_eq_true, if_false]
        by_cases htag : xmlTagOk rt = true
        · simp only [htag, Bool.not_true, Bool.false_eq_true, if_false]
          refine option_ne_none_bind (hM1 _ d ad cs nm cm hfull) ?_
          intro kids
          simp
        · simp [eq_false_of_ne_true htag]

/-- Given the per-child bound at the same fuel level, the child loop
(logic2) never runs out of fuel. -/
lemma processEntries2_no_none_of (jl : String → Option Val) (g : Nat)
    (hPC : ∀ (p : String) (d ad : Row) (cs : Constraints) (nm : NameMap)
      (cm : ContainerMap) (cl rt : String), maxKeyLen nm ≤ p.length + g →
      processChild2 jl g p d ad cs nm cm cl rt ≠ none) :
    ∀ (p : String) (d ad : Row) (cs : Constraints) (nm : NameMap)
      (cm : ContainerMap) (entries : List (String × String)),
      maxKeyLen nm ≤ p.length + g →
      processEntries2 jl g p d ad cs nm cm entries ≠ none := by
  intro p d ad cs nm cm entries hb
  induction entries with
  | nil => rw [processEntries2]; simp
  | cons e rest ih =>
      obtain ⟨cl, rt⟩ := e
      rw [processEntries2]
      refine option_ne_none_bind (hPC p d ad cs nm cm cl rt hb) ?_
      intro r
      split
      · simp
      · refine option_ne_none_bind ih ?_
        intro ys
        simp

/-- The logic2 populator completes whenever the fuel exceeds the longest
name-map key minus the current path length. -/
lemma populate2_no_none (jl : String → Option Val) :
    ∀ (fuel : Nat) (p : String) (d ad : Row) (cs : Constraints) (nm : NameMap)
      (cm : ContainerMap), maxKeyLen nm < p.length + fuel →
      populateFuel2 jl fuel p d ad cs nm cm ≠ none := by
  intro fuel
  induction fuel with
  | zero =>
      intro p d ad cs nm cm hb
      rw [populateFuel2]
      cases hknown : getKeyD nm p [] with
      | nil => simp
      | cons e es =>
          exfalso
          have := known_length_le nm p e es hknown
          omega
  | succ f ih =>
      intro p d ad cs nm cm hb
      rw [populateFuel2]
      cases hknown : getKeyD nm p [] with
      | nil => simp
      | cons e es =>
          simp only
          have hM2 := renderItems2_no_none_of jl f ih
          have hRV := renderValue2_no_none_of jl f ih hM2
          have hPC := processChild2_no_none_of jl f ih hRV
          have hPE := processEntries2_no_none_of jl f hPC
          apply hPE
          have := known_length_le nm p e es hknown
          omega

/-- C10. Both recursive populators terminate: with fuel exceeding the
longest name-map key (minus the current path length), neither the
multi-table populator (`populateFuel1`) nor the attribute-table
populator (`populateFuel2`, for any `json.loads` behaviour) ever
exhausts its fuel — every recursive call extends the schema path by at
least one character, and a path longer than every name-map key yields no
entries and hence no further recursion. -/
theorem populate_children_terminates :
    (∀ (fuel : Nat) (p : String) (d : Row) (cs : Constraints) (nm : NameMap)
        (cm : ContainerMap), maxKeyLen nm < p.length + fuel →
        populateFuel1 fuel p d cs nm cm ≠ .error .fuelOut)
    ∧ (∀ (jl : String → Option Val) (fuel : Nat) (p : String) (d ad : Row)
        (cs : Constraints) (nm : NameMap) (cm : ContainerMap),
        maxKeyLen nm < p.length + fuel →
        populateFuel2 jl fuel p d ad cs nm cm ≠ none) :=
  ⟨populate1_no_fuel, fun jl => populate2_no_none jl⟩

/-- Witness: with the two-character path `/R` and fuel 2, both populators
complete on a concrete record. -/
theorem populate_children_terminates_witness :
    (maxKeyLen nmOneF < ("/R" : String).length + 2
      ∧ populateFuel1 2 "/R" [("f", Val.vStr "x")] csOneF nmOneF [] ≠ .error .fuelOut)
    ∧ (maxKeyLen nmOneF < ("/R" : String).length + 2
      ∧ populateFuel2 (fun _ => none) 2 "/R" [("f", Val.vStr "x")]
          [("f", Val.vStr "x")] csOneF nmOneF [] ≠ none) :=
  ⟨⟨by decide,
    populate_children_terminates.1 2 "/R" [("f", Val.vStr "x")] csOneF nmOneF []
      (by decide)⟩,
   ⟨by decide,
    populate_children_terminates.2 (fun _ => none) 2 "/R" [("f", Val.vStr "x")]
      [("f", Val.vStr "x")] csOneF nmOneF [] (by decide)⟩⟩

end GenXml
